import Mathlib

/-!
# Verification of `singleflight.py` (`SingleFlight.call` and `SingleFlight.wrap`)

We give a shallow embedding of the module as an interleaving small-step
semantics.  A `SFState` holds the fields of a `SingleFlight` object
(`lock`, `m`), a heap of `CallLock` records (Python objects survive their
removal from the dict `m`, so records live in `recs` and `m` maps keys to
record indices), the set of threads currently inside `call`, and a log of
the invocations of the wrapped operations (`events`).

Each atomic step of `stepThread` corresponds to one atomic action of the
Python code (one dict operation, lock operation, field write, or the call
of `fn`).  Dict reads in the follower path are modelled exactly as written
in the source: `self.m[key]` is re-evaluated at every occurrence, it is
*not* captured into a local variable.
-/

set_option autoImplicit false

namespace Tobira

/-- Python values appearing as keys, results and arguments.
`pynone` is Python's `None`, which is also the initial value of the
`res` slot of a `CallLock`. -/
inductive PyVal where
  | pynone
  | pyint (n : Int)
  | pystr (s : String)
  deriving DecidableEq, Repr

/-- A Python exception object: its display text and its truthiness
(`bool(e)`); an exception class may override `__bool__`, so truthiness is
part of the model. -/
structure Exc where
  name : String
  truthy : Bool
  deriving DecidableEq, Repr

/-- `raise TypeError("Key should be a str")` from the key validation. -/
def keyTypeError : Exc := ⟨"TypeError: Key should be a str", true⟩

/-- `raise TypeError("fn should be a callable")` from the fn validation. -/
def fnTypeError : Exc := ⟨"TypeError: fn should be a callable", true⟩

/-- The `KeyError` raised by `self.m[key]` when `key` is absent. -/
def keyErrorExc : Exc := ⟨"KeyError", true⟩

/-- The `TypeError` Python raises for `raise None`. -/
def raiseNoneError : Exc := ⟨"TypeError: exceptions must derive from BaseException", true⟩

/-- What one invocation of the wrapped operation `fn` does:
return a value, raise an `Exception`, or raise a `BaseException` that is
not an `Exception` (e.g. `KeyboardInterrupt`), which the `except
Exception` clause does not catch. -/
inductive OpOutcome where
  | ok (v : PyVal)
  | exn (e : Exc)
  | baseExn (e : Exc)
  deriving Repr

/-- The `fn` argument of `call`: whether it is a `Callable`, and its
behaviour as a function of the positional arguments. -/
structure FnArg where
  callable : Bool
  behavior : List PyVal → OpOutcome

/-- The record class of the source (`class CallLock`): a fresh `Event`
(here a `Bool` flag), `res = None`, `err = None`. -/
structure CallLock where
  ev : Bool
  res : PyVal
  err : Option Exc
  deriving DecidableEq, Repr

/-- A freshly constructed `CallLock()`. -/
def CallLock.init : CallLock := ⟨false, PyVal.pynone, none⟩

/-- Program counter inside `SingleFlight.call`.  Follower locations do not
remember a record: the source re-evaluates `self.m[key]` at every access
(only `self.m[key].ev.wait()` pins the one record whose event it blocks
on, which `fWaitEv` records).  Leader locations carry the local variable
`cl` as a heap index. -/
inductive PC where
  | start
  | acquireL
  | checkKey
  | fWaitLookup
  | fWaitEv (rid : Nat)
  | fErrLookup
  | fRaiseLookup
  | fResLookup
  | invokeFn (rid : Nat)
  | setEv (rid : Nat)
  | graceSleep (rid : Nat)
  | delAcquire (rid : Nat)
  | delKey (rid : Nat)
  | finish (rid : Nat)
  deriving DecidableEq, Repr

/-- How one invocation of `call` ends: a return value, a raised
`Exception` (including `TypeError` / `KeyError`), or a propagated
`BaseException`. -/
inductive Outcome where
  | ok (v : PyVal)
  | exn (e : Exc)
  | baseExn (e : Exc)
  deriving DecidableEq, Repr

/-- A thread is either still running `call` at some program point or done
with an outcome. -/
inductive Status where
  | running (pc : PC)
  | done (o : Outcome)
  deriving DecidableEq, Repr

/-- One thread executing `SingleFlight.call(fn, key, *args)`. -/
structure ThreadSt where
  key : PyVal
  fn : FnArg
  args : List PyVal
  status : Status

/-- The global state: the `SingleFlight` fields `lock` (holder thread id,
if held) and `m` (association list from key to record index), the heap of
`CallLock` records, the threads, and the log of invocations of `fn`
(thread id and arguments), recording how often the operations ran. -/
structure SFState where
  lock : Option Nat
  m : List (String × Nat)
  recs : List CallLock
  threads : List ThreadSt
  events : List (Nat × List PyVal)

/-- `self.m[key]` lookup on the association list. -/
def lookupKey : List (String × Nat) → String → Option Nat
  | [], _ => none
  | (k, r) :: rest, key => if k = key then some r else lookupKey rest key

/-- `del self.m[key]`: removes the (unique) binding of `key`. -/
def eraseKey : List (String × Nat) → String → List (String × Nat)
  | [], _ => []
  | (k, r) :: rest, key => if k = key then rest else (k, r) :: eraseKey rest key

/-- `isinstance(key, str)`: the underlying string, when `key` is one. -/
def keyStr : PyVal → Option String
  | PyVal.pystr s => some s
  | _ => none

/-- Truthiness of the `err` slot, as tested by `if self.m[key].err:`. -/
def errTruthy : Option Exc → Bool
  | none => false
  | some e => e.truthy

/-- List indexing used for the record heap and the thread list. -/
def nth {α : Type} : List α → Nat → Option α
  | [], _ => none
  | a :: _, 0 => some a
  | _ :: l, n + 1 => nth l n

/-- In-place update used for the record heap and the thread list. -/
def setNth {α : Type} : List α → Nat → α → List α
  | [], _, _ => []
  | _ :: l, 0, b => b :: l
  | a :: l, n + 1, b => a :: setNth l n b

/-- Replace thread `tid`'s state. -/
def setThread (s : SFState) (tid : Nat) (t : ThreadSt) : SFState :=
  { s with threads := setNth s.threads tid t }

/-- Move a thread to a new status, keeping its arguments. -/
def withStatus (t : ThreadSt) (st : Status) : ThreadSt :=
  { t with status := st }

/-- One atomic step of thread `tid`, following `SingleFlight.call` line by
line.  `none` means the thread cannot move (it is done, blocked on the
lock, or blocked in `Event.wait`). -/
def stepThread (s : SFState) (tid : Nat) : Option SFState :=
  match nth s.threads tid with
  | none => none
  | some t =>
    match t.status with
    | Status.done _ => none
    | Status.running pc =>
      match pc with
      | PC.start =>
        -- `if not isinstance(key, str): raise TypeError(...)`
        -- `if not isinstance(fn, Callable): raise TypeError(...)`
        match keyStr t.key with
        | none =>
          some (setThread s tid (withStatus t (Status.done (Outcome.exn keyTypeError))))
        | some _ =>
          if t.fn.callable then
            some (setThread s tid (withStatus t (Status.running PC.acquireL)))
          else
            some (setThread s tid (withStatus t (Status.done (Outcome.exn fnTypeError))))
      | PC.acquireL =>
        -- `self.lock.acquire(True)`
        match s.lock with
        | some _ => none
        | none =>
          some { setThread s tid (withStatus t (Status.running PC.checkKey)) with
                   lock := some tid }
      | PC.checkKey =>
        -- `if key in self.m:` then (follower) `self.lock.release()`,
        -- else (leader) `cl = CallLock(); self.m[key] = cl; self.lock.release()`
        match keyStr t.key with
        | none => none
        | some k =>
          match lookupKey s.m k with
          | some _ =>
            some { setThread s tid (withStatus t (Status.running PC.fWaitLookup)) with
                     lock := none }
          | none =>
            some { setThread s tid
                     (withStatus t (Status.running (PC.invokeFn s.recs.length))) with
                     lock := none,
                     m := (k, s.recs.length) :: s.m,
                     recs := s.recs ++ [CallLock.init] }
      | PC.fWaitLookup =>
        -- the `self.m[key]` of `self.m[key].ev.wait()`
        match keyStr t.key with
        | none => none
        | some k =>
          match lookupKey s.m k with
          | none =>
            some (setThread s tid (withStatus t (Status.done (Outcome.exn keyErrorExc))))
          | some rid =>
            some (setThread s tid (withStatus t (Status.running (PC.fWaitEv rid))))
      | PC.fWaitEv rid =>
        -- `.ev.wait()` on the record found by the lookup above
        match nth s.recs rid with
        | none => none
        | some r =>
          if r.ev then
            some (setThread s tid (withStatus t (Status.running PC.fErrLookup)))
          else
            none
      | PC.fErrLookup =>
        -- `if self.m[key].err:` (fresh dict lookup, truthiness test)
        match keyStr t.key with
        | none => none
        | some k =>
          match lookupKey s.m k with
          | none =>
            some (setThread s tid (withStatus t (Status.done (Outcome.exn keyErrorExc))))
          | some rid =>
            match nth s.recs rid with
            | none => none
            | some r =>
              if errTruthy r.err then
                some (setThread s tid (withStatus t (Status.running PC.fRaiseLookup)))
              else
                some (setThread s tid (withStatus t (Status.running PC.fResLookup)))
      | PC.fRaiseLookup =>
        -- `raise self.m[key].err` (fresh dict lookup again)
        match keyStr t.key with
        | none => none
        | some k =>
          match lookupKey s.m k with
          | none =>
            some (setThread s tid (withStatus t (Status.done (Outcome.exn keyErrorExc))))
          | some rid =>
            match nth s.recs rid with
            | none => none
            | some r =>
              match r.err with
              | some e =>
                some (setThread s tid (withStatus t (Status.done (Outcome.exn e))))
              | none =>
                some (setThread s tid
                       (withStatus t (Status.done (Outcome.exn raiseNoneError))))
      | PC.fResLookup =>
        -- `return self.m[key].res` (fresh dict lookup again)
        match keyStr t.key with
        | none => none
        | some k =>
          match lookupKey s.m k with
          | none =>
            some (setThread s tid (withStatus t (Status.done (Outcome.exn keyErrorExc))))
          | some rid =>
            match nth s.recs rid with
            | none => none
            | some r =>
              some (setThread s tid (withStatus t (Status.done (Outcome.ok r.res))))
      | PC.invokeFn rid =>
        -- `try: cl.res = fn(*args); cl.err = None`
        -- `except Exception as e: cl.res = None; cl.err = e`
        -- a `BaseException` that is not an `Exception` propagates out,
        -- leaving the record untouched (`res`/`err`/`ev` stay as created)
        match nth s.recs rid with
        | none => none
        | some r =>
          match t.fn.behavior t.args with
          | OpOutcome.ok v =>
            some { setThread s tid (withStatus t (Status.running (PC.setEv rid))) with
                     recs := setNth s.recs rid { r with res := v, err := none },
                     events := s.events ++ [(tid, t.args)] }
          | OpOutcome.exn e =>
            some { setThread s tid (withStatus t (Status.running (PC.setEv rid))) with
                     recs := setNth s.recs rid { r with res := PyVal.pynone, err := some e },
                     events := s.events ++ [(tid, t.args)] }
          | OpOutcome.baseExn e =>
            some { setThread s tid (withStatus t (Status.done (Outcome.baseExn e))) with
                     events := s.events ++ [(tid, t.args)] }
      | PC.setEv rid =>
        -- `cl.ev.set()`
        match nth s.recs rid with
        | none => none
        | some r =>
          some { setThread s tid (withStatus t (Status.running (PC.graceSleep rid))) with
                   recs := setNth s.recs rid { r with ev := true } }
      | PC.graceSleep rid =>
        -- `sleep(0.01)`: no state change; other threads may interleave
        some (setThread s tid (withStatus t (Status.running (PC.delAcquire rid))))
      | PC.delAcquire rid =>
        -- entering `with self.lock:`
        match s.lock with
        | some _ => none
        | none =>
          some { setThread s tid (withStatus t (Status.running (PC.delKey rid))) with
                   lock := some tid }
      | PC.delKey rid =>
        -- `del self.m[key]`, then the `with` block releases the lock
        match keyStr t.key with
        | none => none
        | some k =>
          match lookupKey s.m k with
          | some _ =>
            some { setThread s tid (withStatus t (Status.running (PC.finish rid))) with
                     m := eraseKey s.m k,
                     lock := none }
          | none =>
            some { setThread s tid (withStatus t (Status.done (Outcome.exn keyErrorExc))) with
                     lock := none }
      | PC.finish rid =>
        -- `if cl.err is not None: raise cl.err` / `return cl.res`
        match nth s.recs rid with
        | none => none
        | some r =>
          match r.err with
          | some e =>
            some (setThread s tid (withStatus t (Status.done (Outcome.exn e))))
          | none =>
            some (setThread s tid (withStatus t (Status.done (Outcome.ok r.res))))

/-- Run one scheduler choice: step thread `tid` if it can move, otherwise
leave the state unchanged. -/
def step1 (s : SFState) (tid : Nat) : SFState :=
  (stepThread s tid).getD s

/-- Run a whole schedule (a list of scheduler choices). -/
def runSched (s : SFState) (sched : List Nat) : SFState :=
  sched.foldl step1 s

/-- The status of thread `tid`. -/
def threadStatus (s : SFState) (tid : Nat) : Option Status :=
  (nth s.threads tid).map ThreadSt.status

/-- The arguments of one invocation of `call`: `call(fn, key, *args)`. -/
structure CallSpec where
  key : PyVal
  fn : FnArg
  args : List PyVal

/-- A thread about to enter `call`. -/
def initThread (c : CallSpec) : ThreadSt :=
  ⟨c.key, c.fn, c.args, Status.running PC.start⟩

/-- A fresh `SingleFlight()` object with the given callers. -/
def initState (cs : List CallSpec) : SFState :=
  ⟨none, [], [], cs.map initThread, []⟩

/-! ## Basic lemmas about the list helpers -/

theorem nth_some_lt {α : Type} {l : List α} {i : Nat} {a : α}
    (h : nth l i = some a) : i < l.length := by
  induction l generalizing i with
  | nil => simp [nth] at h
  | cons b l ih =>
    cases i with
    | zero => simp
    | succ n =>
      have := ih (i := n) h
      simpa using Nat.succ_lt_succ this

@[simp] theorem length_setNth {α : Type} (l : List α) (i : Nat) (b : α) :
    (setNth l i b).length = l.length := by
  induction l generalizing i with
  | nil => simp [setNth]
  | cons a l ih =>
    cases i with
    | zero => simp [setNth]
    | succ n => simp [setNth, ih]

theorem nth_setNth_self {α : Type} {l : List α} {i : Nat} (b : α)
    (h : i < l.length) : nth (setNth l i b) i = some b := by
  induction l generalizing i with
  | nil => simp at h
  | cons a l ih =>
    cases i with
    | zero => simp [setNth, nth]
    | succ n =>
      simp only [setNth, nth]
      exact ih (Nat.lt_of_succ_lt_succ h)

theorem nth_setNth_ne {α : Type} (l : List α) {i j : Nat} (b : α)
    (h : i ≠ j) : nth (setNth l j b) i = nth l i := by
  induction l generalizing i j with
  | nil => simp [setNth]
  | cons a l ih =>
    cases j with
    | zero =>
      cases i with
      | zero => exact absurd rfl h
      | succ n => simp [setNth, nth]
    | succ m =>
      cases i with
      | zero => simp [setNth, nth]
      | succ n =>
        simp only [setNth, nth]
        exact ih (fun hc => h (by simp [hc]))

@[simp] theorem setNth_setNth {α : Type} (l : List α) (i : Nat) (a b : α) :
    setNth (setNth l i a) i b = setNth l i b := by
  induction l generalizing i with
  | nil => simp [setNth]
  | cons c l ih =>
    cases i with
    | zero => simp [setNth]
    | succ n => simp [setNth, ih]

@[simp] theorem nth_append_length {α : Type} (l : List α) (a : α) :
    nth (l ++ [a]) l.length = some a := by
  induction l with
  | nil => simp [nth]
  | cons b l ih => simpa [nth] using ih

theorem nth_append_lt {α : Type} {l : List α} {i : Nat} (a : α)
    (h : i < l.length) : nth (l ++ [a]) i = nth l i := by
  induction l generalizing i with
  | nil => simp at h
  | cons b l ih =>
    cases i with
    | zero => simp [nth]
    | succ n =>
      simp only [List.cons_append, nth]
      exact ih (Nat.lt_of_succ_lt_succ h)

@[simp] theorem setNth_append_length {α : Type} (l : List α) (a b : α) :
    setNth (l ++ [a]) l.length b = l ++ [b] := by
  induction l with
  | nil => simp [setNth]
  | cons c l ih => simpa [setNth] using ih

theorem lookupKey_eraseKey_ne (m : List (String × Nat)) {k k2 : String}
    (h : k ≠ k2) : lookupKey (eraseKey m k2) k = lookupKey m k := by
  induction m with
  | nil => simp [eraseKey]
  | cons p m ih =>
    cases p with
    | mk a b =>
      simp only [eraseKey, lookupKey]
      by_cases hp : a = k2
      · rw [if_pos hp, if_neg (fun hc : a = k => h (hc ▸ hp : k = k2))]
      · rw [if_neg hp]
        simp only [lookupKey]
        by_cases hak : a = k
        · rw [if_pos hak, if_pos hak]
        · rw [if_neg hak, if_neg hak, ih]

/-! ## The leader path, run to completion

`leaderRunOk` and `leaderRunExn` compute the nine atomic steps of a
caller that finds its key absent, uninterleaved with other threads: it
validates, takes the lock, registers a fresh record, invokes the
operation, fires the event, sleeps, deletes the key, and returns the
result (or re-raises the recorded failure). -/

theorem leaderRunOk (lk : String) (beh : List PyVal → OpOutcome)
    (args : List PyVal) (v : PyVal) (ts : List ThreadSt) (tid : Nat)
    (m0 : List (String × Nat)) (recs0 : List CallLock)
    (ev0 : List (Nat × List PyVal))
    (hts : nth ts tid = some ⟨PyVal.pystr lk, ⟨true, beh⟩, args, Status.running PC.start⟩)
    (hm : lookupKey m0 lk = none) (hbeh : beh args = OpOutcome.ok v) :
    runSched ⟨none, m0, recs0, ts, ev0⟩ (List.replicate 9 tid) =
      ⟨none, m0, recs0 ++ [⟨true, v, none⟩],
       setNth ts tid ⟨PyVal.pystr lk, ⟨true, beh⟩, args, Status.done (Outcome.ok v)⟩,
       ev0 ++ [(tid, args)]⟩ := by
  have hlt := nth_some_lt hts
  simp [runSched, List.replicate, step1, stepThread, hts, hm, hbeh,
        nth_setNth_self, hlt, setThread, withStatus, keyStr, lookupKey,
        eraseKey, CallLock.init]

theorem leaderRunExn (lk : String) (beh : List PyVal → OpOutcome)
    (args : List PyVal) (e : Exc) (ts : List ThreadSt) (tid : Nat)
    (m0 : List (String × Nat)) (recs0 : List CallLock)
    (ev0 : List (Nat × List PyVal))
    (hts : nth ts tid = some ⟨PyVal.pystr lk, ⟨true, beh⟩, args, Status.running PC.start⟩)
    (hm : lookupKey m0 lk = none) (hbeh : beh args = OpOutcome.exn e) :
    runSched ⟨none, m0, recs0, ts, ev0⟩ (List.replicate 9 tid) =
      ⟨none, m0, recs0 ++ [⟨true, PyVal.pynone, some e⟩],
       setNth ts tid ⟨PyVal.pystr lk, ⟨true, beh⟩, args, Status.done (Outcome.exn e)⟩,
       ev0 ++ [(tid, args)]⟩ := by
  have hlt := nth_some_lt hts
  simp [runSched, List.replicate, step1, stepThread, hts, hm, hbeh,
        nth_setNth_self, hlt, setThread, withStatus, keyStr, lookupKey,
        eraseKey, CallLock.init]

/-! ## The `wrap` adapter

`wrap(fn)` builds the inner `wrapper` closure and immediately evaluates
`wrapper()` with no arguments, so it returns `partial(self.call, fn)`;
invoking that object with `(key, *args)` performs `self.call(fn, key,
*args)`. -/

/-- The object `partial(self.call, fn, *args, **kwargs)`: `call` with
`fn` and the prefix arguments already bound. -/
structure BoundCall where
  fn : FnArg
  preArgs : List PyVal

/-- The inner `wrapper(*args, **kwargs)`: returns
`partial(self.call, fn, *args, **kwargs)`. -/
def wrapperFn (fn : FnArg) (args : List PyVal) : BoundCall := ⟨fn, args⟩

/-- `SingleFlight.wrap(fn)`: `return wrapper()` evaluates the wrapper
with zero arguments. -/
def wrap (fn : FnArg) : BoundCall := wrapperFn fn []

/-- Invoking a `partial` object with further arguments: the bound prefix
is prepended, and the combined argument list fills `call`'s parameters
`(key, *args)`.  With no argument at all for `key`, Python would raise a
`TypeError` (modelled as `none`). -/
def invokeBound (b : BoundCall) (callArgs : List PyVal) : Option CallSpec :=
  match b.preArgs ++ callArgs with
  | [] => none
  | key :: rest => some ⟨key, b.fn, rest⟩

/-- A direct invocation `self.call(fn, key, *args)`. -/
def directCall (fn : FnArg) (key : PyVal) (args : List PyVal) : CallSpec :=
  ⟨key, fn, args⟩

/-! ## Concrete scenarios used by the claims -/

/-- An operation that returns the integer `n`. -/
def okFn (n : Int) : FnArg := ⟨true, fun _ => OpOutcome.ok (PyVal.pyint n)⟩

/-- Two callers of key `"k"` whose operation returns `42`. -/
def c1State : SFState :=
  initState [⟨PyVal.pystr "k", okFn 42, []⟩, ⟨PyVal.pystr "k", okFn 42, []⟩]

/-- Schedule: thread 1 attaches as a follower while thread 0 is in
flight, wakes from `ev.wait()`, but is then descheduled until thread 0
has slept out the grace interval and deleted the key; only then does
thread 1 evaluate `self.m[key]` again. -/
def lateReadSched : List Nat :=
  [0, 0, 0, 1, 1, 1, 1, 0, 0, 0, 0, 0, 0, 1, 1]

/-- Schedule: the follower performs all of its reads right after the
event fires, before the leader's grace sleep ends. -/
def earlyReadSched : List Nat :=
  [0, 0, 0, 1, 1, 1, 1, 0, 0, 1, 1, 1, 0, 0, 0, 0]

/-- Claim C1: for N concurrent callers with the same key while one
execution is in flight, the operation runs exactly once and every caller
returns that execution's value.  The code violates the second half: in
`c1State` under `lateReadSched` the operation indeed runs exactly once
and the leader returns `42`, but the follower — which attached while the
call was in flight — raises `KeyError`, because the source re-evaluates
`self.m[key]` after `ev.wait()` instead of using a captured record, and
the key has already been deleted. -/
theorem claim1_follower_key_error :
    (runSched c1State lateReadSched).events.length = 1 ∧
    threadStatus (runSched c1State lateReadSched) 0 =
      some (Status.done (Outcome.ok (PyVal.pyint 42))) ∧
    threadStatus (runSched c1State lateReadSched) 1 =
      some (Status.done (Outcome.exn keyErrorExc)) := by
  decide

/-- Two callers of key `"k"` whose operation returns `7`. -/
def c2State : SFState :=
  initState [⟨PyVal.pystr "k", okFn 7, []⟩, ⟨PyVal.pystr "k", okFn 7, []⟩]

/-- Claim C2: a follower is said to capture a reference to the in-flight
record under the lock and to read its result from that captured
reference, making its outcome independent of the record's removal from
the registry.  The code violates this: the same follower, attached at the
same point, returns `7` when it reads before the removal but raises
`KeyError` when it reads after the removal (the third conjunct shows the
key is indeed gone at that point), because every read re-evaluates
`self.m[key]` instead of using a captured reference. -/
theorem claim2_removal_changes_outcome :
    threadStatus (runSched c2State earlyReadSched) 1 =
      some (Status.done (Outcome.ok (PyVal.pyint 7))) ∧
    threadStatus (runSched c2State lateReadSched) 1 =
      some (Status.done (Outcome.exn keyErrorExc)) ∧
    lookupKey (runSched c2State (List.take 13 lateReadSched)).m "k" = none := by
  decide

/-- One caller using the empty string as key. -/
def c3State : SFState :=
  initState [⟨PyVal.pystr "", okFn 7, []⟩]

/-- Claim C3 counterexample: the claim says a key that is not a
*non-empty* string fails immediately with `InvalidArgument` and no
in-flight record is registered.  The code only checks
`isinstance(key, str)`: with the empty-string key the call succeeds with
the operation's value, the operation is invoked, and an in-flight record
is registered under `""`. -/
theorem claim3_empty_key_accepted :
    threadStatus (runSched c3State (List.replicate 9 0)) 0 =
      some (Status.done (Outcome.ok (PyVal.pyint 7))) ∧
    (runSched c3State (List.replicate 9 0)).events.length = 1 ∧
    lookupKey (runSched c3State [0, 0, 0]).m "" = some 0 := by
  decide

/-- An exception whose `__bool__` is `False`. -/
def falsyBoom : Exc := ⟨"FalsyBoom", false⟩

/-- A leader whose operation raises the falsy exception, plus one
follower. -/
def c4State : SFState :=
  initState [⟨PyVal.pystr "k", ⟨true, fun _ => OpOutcome.exn falsyBoom⟩, []⟩,
             ⟨PyVal.pystr "k", okFn 1, []⟩]

/-- Claim C4 counterexample: the claim says the identical failure is
raised to the leader and every follower and no attached caller observes a
success value.  The follower path tests `if self.m[key].err:` by
*truthiness* (the leader path tests `is not None`), so for an exception
object that is falsy the leader raises the failure but the attached
follower returns the `res` slot (`None`) as a success. -/
theorem claim4_falsy_failure_success :
    threadStatus (runSched c4State earlyReadSched) 0 =
      some (Status.done (Outcome.exn falsyBoom)) ∧
    threadStatus (runSched c4State earlyReadSched) 1 =
      some (Status.done (Outcome.ok PyVal.pynone)) := by
  decide

/-- One caller whose operation returns Python `None`. -/
def c6State : SFState :=
  initState [⟨PyVal.pystr "k", ⟨true, fun _ => OpOutcome.ok PyVal.pynone⟩, []⟩]

/-- Claim C6 counterexample: the claim says that after the operation
finishes exactly one of the result and failure slots is set.  When the
operation legitimately returns `None`, the completed record has
`res = None` and `err = None`: both slots hold the unset sentinel, so
*neither* is set (the call still returns `None` correctly). -/
theorem claim6_none_result_neither_slot :
    nth (runSched c6State (List.replicate 9 0)).recs 0 =
      some ⟨true, PyVal.pynone, none⟩ ∧
    threadStatus (runSched c6State (List.replicate 9 0)) 0 =
      some (Status.done (Outcome.ok PyVal.pynone)) := by
  decide

/-- Concatenating schedules composes runs. -/
theorem runSched_append (s : SFState) (a b : List Nat) :
    runSched s (a ++ b) = runSched (runSched s a) b := by
  simp [runSched]

/-- Claim C5: for every string key with no in-flight record, every
callable operation and all arguments, `call` invokes the operation
exactly once with exactly those arguments (the event log grows by the
single entry `(0, args)`) and, when the operation returns `v`, returns
`v` to the caller. -/
theorem claim5_leader_path (k : String) (beh : List PyVal → OpOutcome)
    (args : List PyVal) (v : PyVal) (m0 : List (String × Nat))
    (recs0 : List CallLock) (ev0 : List (Nat × List PyVal))
    (hm : lookupKey m0 k = none) (hbeh : beh args = OpOutcome.ok v) :
    threadStatus
        (runSched
          ⟨none, m0, recs0,
           [⟨PyVal.pystr k, ⟨true, beh⟩, args, Status.running PC.start⟩], ev0⟩
          (List.replicate 9 0)) 0 = some (Status.done (Outcome.ok v)) ∧
    (runSched
        ⟨none, m0, recs0,
         [⟨PyVal.pystr k, ⟨true, beh⟩, args, Status.running PC.start⟩], ev0⟩
        (List.replicate 9 0)).events = ev0 ++ [(0, args)] := by
  rw [leaderRunOk k beh args v
        [⟨PyVal.pystr k, ⟨true, beh⟩, args, Status.running PC.start⟩]
        0 m0 recs0 ev0 rfl hm hbeh]
  exact ⟨rfl, rfl⟩

/-- Witness for C5 at a concrete input. -/
theorem claim5_leader_path_witness :
    lookupKey [] "w" = none ∧
    (fun _ : List PyVal => OpOutcome.ok (PyVal.pyint 5)) [PyVal.pyint 3] =
      OpOutcome.ok (PyVal.pyint 5) ∧
    (threadStatus
        (runSched
          ⟨none, [], [],
           [⟨PyVal.pystr "w", ⟨true, fun _ => OpOutcome.ok (PyVal.pyint 5)⟩,
             [PyVal.pyint 3], Status.running PC.start⟩], []⟩
          (List.replicate 9 0)) 0 =
        some (Status.done (Outcome.ok (PyVal.pyint 5))) ∧
      (runSched
          ⟨none, [], [],
           [⟨PyVal.pystr "w", ⟨true, fun _ => OpOutcome.ok (PyVal.pyint 5)⟩,
             [PyVal.pyint 3], Status.running PC.start⟩], []⟩
          (List.replicate 9 0)).events = [] ++ [(0, [PyVal.pyint 3])]) :=
  ⟨rfl, rfl,
   claim5_leader_path "w" (fun _ => OpOutcome.ok (PyVal.pyint 5))
     [PyVal.pyint 3] (PyVal.pyint 5) [] [] [] rfl rfl⟩

/-- A first caller of `"k"` whose operation raises `e`, then a second
caller of `"k"` whose operation returns `v`, run to completion one after
the other. -/
def c7Run (e : Exc) (v : PyVal) : SFState :=
  runSched
    (initState [⟨PyVal.pystr "k", ⟨true, fun _ => OpOutcome.exn e⟩, []⟩,
                ⟨PyVal.pystr "k", ⟨true, fun _ => OpOutcome.ok v⟩, []⟩])
    (List.replicate 9 0 ++ List.replicate 9 1)

/-- The same two sequential calls when the first one succeeds with `v1`
and the second returns `v2`. -/
def c7RunOk (v1 v2 : PyVal) : SFState :=
  runSched
    (initState [⟨PyVal.pystr "k", ⟨true, fun _ => OpOutcome.ok v1⟩, []⟩,
                ⟨PyVal.pystr "k", ⟨true, fun _ => OpOutcome.ok v2⟩, []⟩])
    (List.replicate 9 0 ++ List.replicate 9 1)

set_option maxHeartbeats 1000000 in
/-- Claim C7: after a call for a key completes — whether it failed with
`e` or succeeded with `v1` — and its record has been removed, the next
call with the same key starts a brand-new execution: the operation runs a
second time, the second caller gets the fresh value rather than a replay
of the earlier result or failure, and the key is free again afterwards. -/
theorem claim7_fresh_execution (e : Exc) (v v1 v2 : PyVal) :
    (threadStatus (c7Run e v) 0 = some (Status.done (Outcome.exn e)) ∧
     threadStatus (c7Run e v) 1 = some (Status.done (Outcome.ok v)) ∧
     (c7Run e v).events = [(0, []), (1, [])] ∧
     lookupKey (c7Run e v).m "k" = none) ∧
    (threadStatus (c7RunOk v1 v2) 0 = some (Status.done (Outcome.ok v1)) ∧
     threadStatus (c7RunOk v1 v2) 1 = some (Status.done (Outcome.ok v2)) ∧
     (c7RunOk v1 v2).events = [(0, []), (1, [])] ∧
     lookupKey (c7RunOk v1 v2).m "k" = none) := by
  constructor
  · have e1 :
        runSched
          (initState [⟨PyVal.pystr "k", ⟨true, fun _ => OpOutcome.exn e⟩, []⟩,
                      ⟨PyVal.pystr "k", ⟨true, fun _ => OpOutcome.ok v⟩, []⟩])
          (List.replicate 9 0) =
        ⟨none, [], [⟨true, PyVal.pynone, some e⟩],
         [⟨PyVal.pystr "k", ⟨true, fun _ => OpOutcome.exn e⟩, [],
           Status.done (Outcome.exn e)⟩,
          ⟨PyVal.pystr "k", ⟨true, fun _ => OpOutcome.ok v⟩, [],
           Status.running PC.start⟩], [(0, [])]⟩ :=
      leaderRunExn "k" (fun _ => OpOutcome.exn e) [] e
        [⟨PyVal.pystr "k", ⟨true, fun _ => OpOutcome.exn e⟩, [],
          Status.running PC.start⟩,
         ⟨PyVal.pystr "k", ⟨true, fun _ => OpOutcome.ok v⟩, [],
          Status.running PC.start⟩] 0 [] [] [] rfl rfl rfl
    have e2 : c7Run e v =
        ⟨none, [], [⟨true, PyVal.pynone, some e⟩, ⟨true, v, none⟩],
         [⟨PyVal.pystr "k", ⟨true, fun _ => OpOutcome.exn e⟩, [],
           Status.done (Outcome.exn e)⟩,
          ⟨PyVal.pystr "k", ⟨true, fun _ => OpOutcome.ok v⟩, [],
           Status.done (Outcome.ok v)⟩], [(0, []), (1, [])]⟩ := by
      show runSched _ (List.replicate 9 0 ++ List.replicate 9 1) = _
      rw [runSched_append, e1]
      exact leaderRunOk "k" (fun _ => OpOutcome.ok v) [] v
        [⟨PyVal.pystr "k", ⟨true, fun _ => OpOutcome.exn e⟩, [],
          Status.done (Outcome.exn e)⟩,
         ⟨PyVal.pystr "k", ⟨true, fun _ => OpOutcome.ok v⟩, [],
          Status.running PC.start⟩] 1 []
        [⟨true, PyVal.pynone, some e⟩] [(0, [])] rfl rfl rfl
    rw [e2]
    exact ⟨rfl, rfl, rfl, rfl⟩
  · have e1 :
        runSched
          (initState [⟨PyVal.pystr "k", ⟨true, fun _ => OpOutcome.ok v1⟩, []⟩,
                      ⟨PyVal.pystr "k", ⟨true, fun _ => OpOutcome.ok v2⟩, []⟩])
          (List.replicate 9 0) =
        ⟨none, [], [⟨true, v1, none⟩],
         [⟨PyVal.pystr "k", ⟨true, fun _ => OpOutcome.ok v1⟩, [],
           Status.done (Outcome.ok v1)⟩,
          ⟨PyVal.pystr "k", ⟨true, fun _ => OpOutcome.ok v2⟩, [],
           Status.running PC.start⟩], [(0, [])]⟩ :=
      leaderRunOk "k" (fun _ => OpOutcome.ok v1) [] v1
        [⟨PyVal.pystr "k", ⟨true, fun _ => OpOutcome.ok v1⟩, [],
          Status.running PC.start⟩,
         ⟨PyVal.pystr "k", ⟨true, fun _ => OpOutcome.ok v2⟩, [],
          Status.running PC.start⟩] 0 [] [] [] rfl rfl rfl
    have e2 : c7RunOk v1 v2 =
        ⟨none, [], [⟨true, v1, none⟩, ⟨true, v2, none⟩],
         [⟨PyVal.pystr "k", ⟨true, fun _ => OpOutcome.ok v1⟩, [],
           Status.done (Outcome.ok v1)⟩,
          ⟨PyVal.pystr "k", ⟨true, fun _ => OpOutcome.ok v2⟩, [],
           Status.done (Outcome.ok v2)⟩], [(0, []), (1, [])]⟩ := by
      show runSched _ (List.replicate 9 0 ++ List.replicate 9 1) = _
      rw [runSched_append, e1]
      exact leaderRunOk "k" (fun _ => OpOutcome.ok v2) [] v2
        [⟨PyVal.pystr "k", ⟨true, fun _ => OpOutcome.ok v1⟩, [],
          Status.done (Outcome.ok v1)⟩,
         ⟨PyVal.pystr "k", ⟨true, fun _ => OpOutcome.ok v2⟩, [],
          Status.running PC.start⟩] 1 []
        [⟨true, v1, none⟩] [(0, [])] rfl rfl rfl
    rw [e2]
    exact ⟨rfl, rfl, rfl, rfl⟩

/-- Claim C9: `wrap(fn)` returns `partial(self.call, fn)` (the inner
wrapper is evaluated once with no arguments), so invoking the wrapped
object with a key and arguments denotes exactly the direct invocation
`call(fn, key, *args)`; in particular both produce identical runs under
every schedule, so the outcome and the coalescing semantics are
unchanged. -/
theorem claim9_wrap_forwards (fn : FnArg) (key : PyVal) (args : List PyVal) :
    invokeBound (wrap fn) (key :: args) = some (directCall fn key args) ∧
    ∀ sched : List Nat,
      (invokeBound (wrap fn) (key :: args)).map
          (fun c => runSched (initState [c]) sched) =
        some (runSched (initState [directCall fn key args]) sched) :=
  ⟨rfl, fun _ => rfl⟩

/-- Claim C3 (amended): if the key is not a string or the operation is
not callable, `call` fails immediately with the corresponding
`TypeError`, raised before any locking or registry access (the lock, the
registry, the record heap and the event log are all untouched); an input
with a *string* key — the empty string included — and a callable
operation passes validation without any such error and proceeds to
acquire the lock. -/
theorem claim3_validation (s : SFState) (tid : Nat) (t : ThreadSt)
    (ht : nth s.threads tid = some t)
    (hpc : t.status = Status.running PC.start) :
    (∀ s2, stepThread s tid = some s2 →
        s2.m = s.m ∧ s2.lock = s.lock ∧ s2.recs = s.recs ∧ s2.events = s.events) ∧
    (keyStr t.key = none →
        stepThread s tid =
          some (setThread s tid (withStatus t (Status.done (Outcome.exn keyTypeError))))) ∧
    (keyStr t.key ≠ none → t.fn.callable = false →
        stepThread s tid =
          some (setThread s tid (withStatus t (Status.done (Outcome.exn fnTypeError))))) ∧
    (keyStr t.key ≠ none → t.fn.callable = true →
        stepThread s tid =
          some (setThread s tid (withStatus t (Status.running PC.acquireL)))) := by
  refine ⟨?_, ?_, ?_, ?_⟩
  · intro s2 h2
    cases hk : keyStr t.key with
    | none =>
      simp only [stepThread, ht, hpc, hk] at h2
      cases h2
      simp [setThread]
    | some k =>
      by_cases hc : t.fn.callable <;>
        simp only [stepThread, ht, hpc, hk, hc, if_true, if_false,
          Bool.false_eq_true, ite_false, ite_true] at h2 <;>
        (cases h2; simp [setThread])
  · intro hk
    simp [stepThread, ht, hpc, hk]
  · intro hk hc
    cases hk2 : keyStr t.key with
    | none => exact absurd hk2 hk
    | some k => simp [stepThread, ht, hpc, hk2, hc]
  · intro hk hc
    cases hk2 : keyStr t.key with
    | none => exact absurd hk2 hk
    | some k => simp [stepThread, ht, hpc, hk2, hc]

/-- Witness for C3 (amended): a non-string key fails with the key
`TypeError` at the validation step. -/
theorem claim3_validation_witness :
    nth (initState [⟨PyVal.pyint 3, ⟨true, fun _ => OpOutcome.ok PyVal.pynone⟩, []⟩]).threads 0 =
      some (initThread ⟨PyVal.pyint 3, ⟨true, fun _ => OpOutcome.ok PyVal.pynone⟩, []⟩) ∧
    (initThread ⟨PyVal.pyint 3, ⟨true, fun _ => OpOutcome.ok PyVal.pynone⟩, []⟩).status =
      Status.running PC.start ∧
    stepThread (initState [⟨PyVal.pyint 3, ⟨true, fun _ => OpOutcome.ok PyVal.pynone⟩, []⟩]) 0 =
      some (setThread
        (initState [⟨PyVal.pyint 3, ⟨true, fun _ => OpOutcome.ok PyVal.pynone⟩, []⟩]) 0
        (withStatus (initThread ⟨PyVal.pyint 3, ⟨true, fun _ => OpOutcome.ok PyVal.pynone⟩, []⟩)
          (Status.done (Outcome.exn keyTypeError)))) :=
  ⟨rfl, rfl,
   (claim3_validation
      (initState [⟨PyVal.pyint 3, ⟨true, fun _ => OpOutcome.ok PyVal.pynone⟩, []⟩]) 0
      (initThread ⟨PyVal.pyint 3, ⟨true, fun _ => OpOutcome.ok PyVal.pynone⟩, []⟩)
      rfl rfl).2.1 rfl⟩

/-- Claim C4 (amended): an operation failure is recorded once in the
record's `err` slot and never retried; the leader re-raises exactly the
recorded failure (its test is `is not None`); a follower re-raises
exactly the recorded failure when the failure value is truthy, but when
the failure value is falsy the follower's truthiness test
`if self.m[key].err:` sends it to the result branch, where it returns the
record's `res` slot as a success instead of raising. -/
theorem claim4_replay (s : SFState) (tid : Nat) (t : ThreadSt) (k : String)
    (rid : Nat) (r : CallLock) (e : Exc)
    (ht : nth s.threads tid = some t)
    (hk : keyStr t.key = some k)
    (hm : lookupKey s.m k = some rid)
    (hr : nth s.recs rid = some r)
    (he : r.err = some e) :
    (t.status = Status.running (PC.finish rid) →
        stepThread s tid =
          some (setThread s tid (withStatus t (Status.done (Outcome.exn e))))) ∧
    (t.status = Status.running PC.fErrLookup → e.truthy = true →
        stepThread s tid =
          some (setThread s tid (withStatus t (Status.running PC.fRaiseLookup)))) ∧
    (t.status = Status.running PC.fErrLookup → e.truthy = false →
        stepThread s tid =
          some (setThread s tid (withStatus t (Status.running PC.fResLookup)))) ∧
    (t.status = Status.running PC.fRaiseLookup →
        stepThread s tid =
          some (setThread s tid (withStatus t (Status.done (Outcome.exn e))))) ∧
    (t.status = Status.running PC.fResLookup →
        stepThread s tid =
          some (setThread s tid (withStatus t (Status.done (Outcome.ok r.res))))) ∧
    (∀ e2, t.status = Status.running (PC.invokeFn rid) →
        t.fn.behavior t.args = OpOutcome.exn e2 →
        stepThread s tid =
          some { setThread s tid (withStatus t (Status.running (PC.setEv rid))) with
                   recs := setNth s.recs rid { r with res := PyVal.pynone, err := some e2 },
                   events := s.events ++ [(tid, t.args)] }) := by
  refine ⟨?_, ?_, ?_, ?_, ?_, ?_⟩
  · intro hpc
    simp [stepThread, ht, hpc, hr, he]
  · intro hpc htr
    simp [stepThread, ht, hpc, hk, hm, hr, he, errTruthy, htr]
  · intro hpc htr
    simp [stepThread, ht, hpc, hk, hm, hr, he, errTruthy, htr]
  · intro hpc
    simp [stepThread, ht, hpc, hk, hm, hr, he]
  · intro hpc
    simp [stepThread, ht, hpc, hk, hm, hr]
  · intro e2 hpc hb
    simp [stepThread, ht, hpc, hr, hb]

/-- A completed record carrying a truthy failure, with its leader at the
final re-raise point. -/
def c4wState : SFState :=
  ⟨none, [("k", 0)], [⟨true, PyVal.pynone, some ⟨"Boom", true⟩⟩],
   [⟨PyVal.pystr "k", ⟨true, fun _ => OpOutcome.exn ⟨"Boom", true⟩⟩, [],
     Status.running (PC.finish 0)⟩], [(0, [])]⟩

/-- Witness for C4 (amended): the leader at the re-raise point raises
exactly the recorded failure. -/
theorem claim4_replay_witness :
    nth c4wState.threads 0 =
      some ⟨PyVal.pystr "k", ⟨true, fun _ => OpOutcome.exn ⟨"Boom", true⟩⟩, [],
            Status.running (PC.finish 0)⟩ ∧
    lookupKey c4wState.m "k" = some 0 ∧
    nth c4wState.recs 0 = some ⟨true, PyVal.pynone, some ⟨"Boom", true⟩⟩ ∧
    stepThread c4wState 0 =
      some (setThread c4wState 0
        (withStatus
          ⟨PyVal.pystr "k", ⟨true, fun _ => OpOutcome.exn ⟨"Boom", true⟩⟩, [],
           Status.running (PC.finish 0)⟩
          (Status.done (Outcome.exn ⟨"Boom", true⟩)))) :=
  ⟨rfl, rfl, rfl,
   (claim4_replay c4wState 0
      ⟨PyVal.pystr "k", ⟨true, fun _ => OpOutcome.exn ⟨"Boom", true⟩⟩, [],
       Status.running (PC.finish 0)⟩
      "k" 0 ⟨true, PyVal.pynone, some ⟨"Boom", true⟩⟩ ⟨"Boom", true⟩
      rfl rfl rfl rfl rfl).1 rfl⟩

/-- Claim C6 (amended): after the `try`/`except` block finishes, the
`err` slot is non-`None` exactly when the operation raised an
`Exception`, and the `res` slot holds the operation's return value on
success and `None` on failure; hence at most one of the two slots is ever
non-`None`, but both are `None` when the operation returns `None` —
"exactly one is set, never neither" fails for `None`-returning
operations. -/
theorem claim6_slots (s : SFState) (tid : Nat) (t : ThreadSt) (rid : Nat)
    (r : CallLock)
    (ht : nth s.threads tid = some t)
    (hpc : t.status = Status.running (PC.invokeFn rid))
    (hr : nth s.recs rid = some r)
    (hres : r.res = PyVal.pynone) :
    (∀ v, t.fn.behavior t.args = OpOutcome.ok v →
        ∃ s2, stepThread s tid = some s2 ∧ nth s2.recs rid = some ⟨r.ev, v, none⟩) ∧
    (∀ e, t.fn.behavior t.args = OpOutcome.exn e →
        ∃ s2, stepThread s tid = some s2 ∧
          nth s2.recs rid = some ⟨r.ev, PyVal.pynone, some e⟩) ∧
    (∀ s2 r2, stepThread s tid = some s2 → nth s2.recs rid = some r2 →
        ¬(r2.res ≠ PyVal.pynone ∧ r2.err ≠ none)) := by
  have hlt : rid < s.recs.length := nth_some_lt hr
  refine ⟨?_, ?_, ?_⟩
  · intro v hb
    have h2 : stepThread s tid =
        some { setThread s tid (withStatus t (Status.running (PC.setEv rid))) with
                 recs := setNth s.recs rid { r with res := v, err := none },
                 events := s.events ++ [(tid, t.args)] } := by
      simp [stepThread, ht, hpc, hr, hb]
    exact ⟨_, h2, by simp [nth_setNth_self, hlt]⟩
  · intro e hb
    have h2 : stepThread s tid =
        some { setThread s tid (withStatus t (Status.running (PC.setEv rid))) with
                 recs := setNth s.recs rid { r with res := PyVal.pynone, err := some e },
                 events := s.events ++ [(tid, t.args)] } := by
      simp [stepThread, ht, hpc, hr, hb]
    exact ⟨_, h2, by simp [nth_setNth_self, hlt]⟩
  · intro s2 r2 h2 hr2
    cases hb : t.fn.behavior t.args with
    | ok v =>
      simp only [stepThread, ht, hpc, hr, hb] at h2
      cases h2
      rw [nth_setNth_self _ hlt] at hr2
      cases hr2
      simp
    | exn e =>
      simp only [stepThread, ht, hpc, hr, hb] at h2
      cases h2
      rw [nth_setNth_self _ hlt] at hr2
      cases hr2
      simp
    | baseExn e =>
      simp only [stepThread, ht, hpc, hr, hb] at h2
      cases h2
      simp only [setThread] at hr2
      rw [hr] at hr2
      cases hr2
      intro hc
      exact hc.1 hres

/-- A fresh record whose leader is about to run a `None`-returning
operation. -/
def c6wState : SFState :=
  ⟨none, [("k", 0)], [CallLock.init],
   [⟨PyVal.pystr "k", ⟨true, fun _ => OpOutcome.ok PyVal.pynone⟩, [],
     Status.running (PC.invokeFn 0)⟩], []⟩

/-- Witness for C6 (amended): running the `None`-returning operation
leaves `res = None` and `err = None`. -/
theorem claim6_slots_witness :
    nth c6wState.threads 0 =
      some ⟨PyVal.pystr "k", ⟨true, fun _ => OpOutcome.ok PyVal.pynone⟩, [],
            Status.running (PC.invokeFn 0)⟩ ∧
    nth c6wState.recs 0 = some CallLock.init ∧
    (∃ s2, stepThread c6wState 0 = some s2 ∧
        nth s2.recs 0 = some ⟨CallLock.init.ev, PyVal.pynone, none⟩) :=
  ⟨rfl, rfl,
   (claim6_slots c6wState 0
      ⟨PyVal.pystr "k", ⟨true, fun _ => OpOutcome.ok PyVal.pynone⟩, [],
       Status.running (PC.invokeFn 0)⟩
      0 CallLock.init rfl rfl rfl rfl).1 PyVal.pynone rfl⟩

/-! ## A characterization of the atomic steps

`StepRel s tid t s2` enumerates the possible successful transitions of
thread `tid` (whose current state is `t`), naming one case per syntactic
branch of `stepThread`.  `step_cases` shows every successful step is of
one of these shapes; the safety invariants below are proved by case
analysis on it. -/

inductive StepRel (s : SFState) (tid : Nat) (t : ThreadSt) : SFState → Prop where
  | startKeyErr (hpc : t.status = Status.running PC.start)
      (hk : keyStr t.key = none) :
      StepRel s tid t
        (setThread s tid (withStatus t (Status.done (Outcome.exn keyTypeError))))
  | startFnErr (k : String) (hpc : t.status = Status.running PC.start)
      (hk : keyStr t.key = some k) (hc : t.fn.callable = false) :
      StepRel s tid t
        (setThread s tid (withStatus t (Status.done (Outcome.exn fnTypeError))))
  | startOk (k : String) (hpc : t.status = Status.running PC.start)
      (hk : keyStr t.key = some k) (hc : t.fn.callable = true) :
      StepRel s tid t
        (setThread s tid (withStatus t (Status.running PC.acquireL)))
  | acq (hpc : t.status = Status.running PC.acquireL) (hl : s.lock = none) :
      StepRel s tid t
        { setThread s tid (withStatus t (Status.running PC.checkKey)) with
            lock := some tid }
  | checkFollower (k : String) (rid : Nat)
      (hpc : t.status = Status.running PC.checkKey)
      (hk : keyStr t.key = some k) (hm : lookupKey s.m k = some rid) :
      StepRel s tid t
        { setThread s tid (withStatus t (Status.running PC.fWaitLookup)) with
            lock := none }
  | checkLeader (k : String)
      (hpc : t.status = Status.running PC.checkKey)
      (hk : keyStr t.key = some k) (hm : lookupKey s.m k = none) :
      StepRel s tid t
        { setThread s tid
            (withStatus t (Status.running (PC.invokeFn s.recs.length))) with
            lock := none,
            m := (k, s.recs.length) :: s.m,
            recs := s.recs ++ [CallLock.init] }
  | waitLookupMiss (k : String)
      (hpc : t.status = Status.running PC.fWaitLookup)
      (hk : keyStr t.key = some k) (hm : lookupKey s.m k = none) :
      StepRel s tid t
        (setThread s tid (withStatus t (Status.done (Outcome.exn keyErrorExc))))
  | waitLookupHit (k : String) (rid : Nat)
      (hpc : t.status = Status.running PC.fWaitLookup)
      (hk : keyStr t.key = some k) (hm : lookupKey s.m k = some rid) :
      StepRel s tid t
        (setThread s tid (withStatus t (Status.running (PC.fWaitEv rid))))
  | waitPass (rid : Nat) (r : CallLock)
      (hpc : t.status = Status.running (PC.fWaitEv rid))
      (hr : nth s.recs rid = some r) (hev : r.ev = true) :
      StepRel s tid t
        (setThread s tid (withStatus t (Status.running PC.fErrLookup)))
  | errLookupMiss (k : String)
      (hpc : t.status = Status.running PC.fErrLookup)
      (hk : keyStr t.key = some k) (hm : lookupKey s.m k = none) :
      StepRel s tid t
        (setThread s tid (withStatus t (Status.done (Outcome.exn keyErrorExc))))
  | errLookupTruthy (k : String) (rid : Nat) (r : CallLock)
      (hpc : t.status = Status.running PC.fErrLookup)
      (hk : keyStr t.key = some k) (hm : lookupKey s.m k = some rid)
      (hr : nth s.recs rid = some r) (htr : errTruthy r.err = true) :
      StepRel s tid t
        (setThread s tid (withStatus t (Status.running PC.fRaiseLookup)))
  | errLookupFalsy (k : String) (rid : Nat) (r : CallLock)
      (hpc : t.status = Status.running PC.fErrLookup)
      (hk : keyStr t.key = some k) (hm : lookupKey s.m k = some rid)
      (hr : nth s.recs rid = some r) (htr : errTruthy r.err = false) :
      StepRel s tid t
        (setThread s tid (withStatus t (Status.running PC.fResLookup)))
  | raiseLookupMiss (k : String)
      (hpc : t.status = Status.running PC.fRaiseLookup)
      (hk : keyStr t.key = some k) (hm : lookupKey s.m k = none) :
      StepRel s tid t
        (setThread s tid (withStatus t (Status.done (Outcome.exn keyErrorExc))))
  | raiseSome (k : String) (rid : Nat) (r : CallLock) (e : Exc)
      (hpc : t.status = Status.running PC.fRaiseLookup)
      (hk : keyStr t.key = some k) (hm : lookupKey s.m k = some rid)
      (hr : nth s.recs rid = some r) (he : r.err = some e) :
      StepRel s tid t
        (setThread s tid (withStatus t (Status.done (Outcome.exn e))))
  | raiseNone (k : String) (rid : Nat) (r : CallLock)
      (hpc : t.status = Status.running PC.fRaiseLookup)
      (hk : keyStr t.key = some k) (hm : lookupKey s.m k = some rid)
      (hr : nth s.recs rid = some r) (he : r.err = none) :
      StepRel s tid t
        (setThread s tid (withStatus t (Status.done (Outcome.exn raiseNoneError))))
  | resLookupMiss (k : String)
      (hpc : t.status = Status.running PC.fResLookup)
      (hk : keyStr t.key = some k) (hm : lookupKey s.m k = none) :
      StepRel s tid t
        (setThread s tid (withStatus t (Status.done (Outcome.exn keyErrorExc))))
  | resHit (k : String) (rid : Nat) (r : CallLock)
      (hpc : t.status = Status.running PC.fResLookup)
      (hk : keyStr t.key = some k) (hm : lookupKey s.m k = some rid)
      (hr : nth s.recs rid = some r) :
      StepRel s tid t
        (setThread s tid (withStatus t (Status.done (Outcome.ok r.res))))
  | invokeOk (rid : Nat) (r : CallLock) (v : PyVal)
      (hpc : t.status = Status.running (PC.invokeFn rid))
      (hr : nth s.recs rid = some r)
      (hb : t.fn.behavior t.args = OpOutcome.ok v) :
      StepRel s tid t
        { setThread s tid (withStatus t (Status.running (PC.setEv rid))) with
            recs := setNth s.recs rid { r with res := v, err := none },
            events := s.events ++ [(tid, t.args)] }
  | invokeExn (rid : Nat) (r : CallLock) (e : Exc)
      (hpc : t.status = Status.running (PC.invokeFn rid))
      (hr : nth s.recs rid = some r)
      (hb : t.fn.behavior t.args = OpOutcome.exn e) :
      StepRel s tid t
        { setThread s tid (withStatus t (Status.running (PC.setEv rid))) with
            recs := setNth s.recs rid { r with res := PyVal.pynone, err := some e },
            events := s.events ++ [(tid, t.args)] }
  | invokeBase (rid : Nat) (r : CallLock) (e : Exc)
      (hpc : t.status = Status.running (PC.invokeFn rid))
      (hr : nth s.recs rid = some r)
      (hb : t.fn.behavior t.args = OpOutcome.baseExn e) :
      StepRel s tid t
        { setThread s tid (withStatus t (Status.done (Outcome.baseExn e))) with
            events := s.events ++ [(tid, t.args)] }
  | evSet (rid : Nat) (r : CallLock)
      (hpc : t.status = Status.running (PC.setEv rid))
      (hr : nth s.recs rid = some r) :
      StepRel s tid t
        { setThread s tid (withStatus t (Status.running (PC.graceSleep rid))) with
            recs := setNth s.recs rid { r with ev := true } }
  | grace (rid : Nat)
      (hpc : t.status = Status.running (PC.graceSleep rid)) :
      StepRel s tid t
        (setThread s tid (withStatus t (Status.running (PC.delAcquire rid))))
  | delAcq (rid : Nat)
      (hpc : t.status = Status.running (PC.delAcquire rid)) (hl : s.lock = none) :
      StepRel s tid t
        { setThread s tid (withStatus t (Status.running (PC.delKey rid))) with
            lock := some tid }
  | delHit (k : String) (rid rid2 : Nat)
      (hpc : t.status = Status.running (PC.delKey rid))
      (hk : keyStr t.key = some k) (hm : lookupKey s.m k = some rid2) :
      StepRel s tid t
        { setThread s tid (withStatus t (Status.running (PC.finish rid))) with
            m := eraseKey s.m k,
            lock := none }
  | delMiss (k : String) (rid : Nat)
      (hpc : t.status = Status.running (PC.delKey rid))
      (hk : keyStr t.key = some k) (hm : lookupKey s.m k = none) :
      StepRel s tid t
        { setThread s tid (withStatus t (Status.done (Outcome.exn keyErrorExc))) with
            lock := none }
  | finErr (rid : Nat) (r : CallLock) (e : Exc)
      (hpc : t.status = Status.running (PC.finish rid))
      (hr : nth s.recs rid = some r) (he : r.err = some e) :
      StepRel s tid t
        (setThread s tid (withStatus t (Status.done (Outcome.exn e))))
  | finOk (rid : Nat) (r : CallLock)
      (hpc : t.status = Status.running (PC.finish rid))
      (hr : nth s.recs rid = some r) (he : r.err = none) :
      StepRel s tid t
        (setThread s tid (withStatus t (Status.done (Outcome.ok r.res))))

theorem step_cases (s : SFState) (tid : Nat) (s2 : SFState)
    (h : stepThread s tid = some s2) :
    ∃ t, nth s.threads tid = some t ∧ StepRel s tid t s2 := by
  cases ht : nth s.threads tid with
  | none => simp [stepThread, ht] at h
  | some t =>
    refine ⟨t, rfl, ?_⟩
    cases hst : t.status with
    | done o => simp [stepThread, ht, hst] at h
    | running pc =>
      cases pc with
      | start =>
        cases hk : keyStr t.key with
        | none =>
          simp only [stepThread, ht, hst, hk, Option.some.injEq] at h
          exact h ▸ StepRel.startKeyErr hst hk
        | some k =>
          cases hc : t.fn.callable with
          | false =>
            simp only [stepThread, ht, hst, hk, hc, Bool.false_eq_true,
              if_false, Option.some.injEq] at h
            exact h ▸ StepRel.startFnErr k hst hk hc
          | true =>
            simp only [stepThread, ht, hst, hk, hc, if_true,
              Option.some.injEq] at h
            exact h ▸ StepRel.startOk k hst hk hc
      | acquireL =>
        cases hl : s.lock with
        | some j => simp [stepThread, ht, hst, hl] at h
        | none =>
          simp only [stepThread, ht, hst, hl, Option.some.injEq] at h
          exact h ▸ StepRel.acq hst hl
      | checkKey =>
        cases hk : keyStr t.key with
        | none => simp [stepThread, ht, hst, hk] at h
        | some k =>
          cases hm : lookupKey s.m k with
          | some rid =>
            simp only [stepThread, ht, hst, hk, hm, Option.some.injEq] at h
            exact h ▸ StepRel.checkFollower k rid hst hk hm
          | none =>
            simp only [stepThread, ht, hst, hk, hm, Option.some.injEq] at h
            exact h ▸ StepRel.checkLeader k hst hk hm
      | fWaitLookup =>
        cases hk : keyStr t.key with
        | none => simp [stepThread, ht, hst, hk] at h
        | some k =>
          cases hm : lookupKey s.m k with
          | none =>
            simp only [stepThread, ht, hst, hk, hm, Option.some.injEq] at h
            exact h ▸ StepRel.waitLookupMiss k hst hk hm
          | some rid =>
            simp only [stepThread, ht, hst, hk, hm, Option.some.injEq] at h
            exact h ▸ StepRel.waitLookupHit k rid hst hk hm
      | fWaitEv rid =>
        cases hr : nth s.recs rid with
        | none => simp [stepThread, ht, hst, hr] at h
        | some r =>
          cases hev : r.ev with
          | false => simp [stepThread, ht, hst, hr, hev] at h
          | true =>
            simp only [stepThread, ht, hst, hr, hev, if_true,
              Option.some.injEq] at h
            exact h ▸ StepRel.waitPass rid r hst hr hev
      | fErrLookup =>
        cases hk : keyStr t.key with
        | none => simp [stepThread, ht, hst, hk] at h
        | some k =>
          cases hm : lookupKey s.m k with
          | none =>
            simp only [stepThread, ht, hst, hk, hm, Option.some.injEq] at h
            exact h ▸ StepRel.errLookupMiss k hst hk hm
          | some rid =>
            cases hr : nth s.recs rid with
            | none => simp [stepThread, ht, hst, hk, hm, hr] at h
            | some r =>
              cases htr : errTruthy r.err with
              | true =>
                simp only [stepThread, ht, hst, hk, hm, hr, htr, if_true,
                  Option.some.injEq] at h
                exact h ▸ StepRel.errLookupTruthy k rid r hst hk hm hr htr
              | false =>
                simp only [stepThread, ht, hst, hk, hm, hr, htr,
                  Bool.false_eq_true, if_false, Option.some.injEq] at h
                exact h ▸ StepRel.errLookupFalsy k rid r hst hk hm hr htr
      | fRaiseLookup =>
        cases hk : keyStr t.key with
        | none => simp [stepThread, ht, hst, hk] at h
        | some k =>
          cases hm : lookupKey s.m k with
          | none =>
            simp only [stepThread, ht, hst, hk, hm, Option.some.injEq] at h
            exact h ▸ StepRel.raiseLookupMiss k hst hk hm
          | some rid =>
            cases hr : nth s.recs rid with
            | none => simp [stepThread, ht, hst, hk, hm, hr] at h
            | some r =>
              cases he : r.err with
              | some e =>
                simp only [stepThread, ht, hst, hk, hm, hr, he,
                  Option.some.injEq] at h
                exact h ▸ StepRel.raiseSome k rid r e hst hk hm hr he
              | none =>
                simp only [stepThread, ht, hst, hk, hm, hr, he,
                  Option.some.injEq] at h
                exact h ▸ StepRel.raiseNone k rid r hst hk hm hr he
      | fResLookup =>
        cases hk : keyStr t.key with
        | none => simp [stepThread, ht, hst, hk] at h
        | some k =>
          cases hm : lookupKey s.m k with
          | none =>
            simp only [stepThread, ht, hst, hk, hm, Option.some.injEq] at h
            exact h ▸ StepRel.resLookupMiss k hst hk hm
          | some rid =>
            cases hr : nth s.recs rid with
            | none => simp [stepThread, ht, hst, hk, hm, hr] at h
            | some r =>
              simp only [stepThread, ht, hst, hk, hm, hr, Option.some.injEq] at h
              exact h ▸ StepRel.resHit k rid r hst hk hm hr
      | invokeFn rid =>
        cases hr : nth s.recs rid with
        | none => simp [stepThread, ht, hst, hr] at h
        | some r =>
          cases hb : t.fn.behavior t.args with
          | ok v =>
            simp only [stepThread, ht, hst, hr, hb, Option.some.injEq] at h
            exact h ▸ StepRel.invokeOk rid r v hst hr hb
          | exn e =>
            simp only [stepThread, ht, hst, hr, hb, Option.some.injEq] at h
            exact h ▸ StepRel.invokeExn rid r e hst hr hb
          | baseExn e =>
            simp only [stepThread, ht, hst, hr, hb, Option.some.injEq] at h
            exact h ▸ StepRel.invokeBase rid r e hst hr hb
      | setEv rid =>
        cases hr : nth s.recs rid with
        | none => simp [stepThread, ht, hst, hr] at h
        | some r =>
          simp only [stepThread, ht, hst, hr, Option.some.injEq] at h
          exact h ▸ StepRel.evSet rid r hst hr
      | graceSleep rid =>
        simp only [stepThread, ht, hst, Option.some.injEq] at h
        exact h ▸ StepRel.grace rid hst
      | delAcquire rid =>
        cases hl : s.lock with
        | some j => simp [stepThread, ht, hst, hl] at h
        | none =>
          simp only [stepThread, ht, hst, hl, Option.some.injEq] at h
          exact h ▸ StepRel.delAcq rid hst hl
      | delKey rid =>
        cases hk : keyStr t.key with
        | none => simp [stepThread, ht, hst, hk] at h
        | some k =>
          cases hm : lookupKey s.m k with
          | some rid2 =>
            simp only [stepThread, ht, hst, hk, hm, Option.some.injEq] at h
            exact h ▸ StepRel.delHit k rid rid2 hst hk hm
          | none =>
            simp only [stepThread, ht, hst, hk, hm, Option.some.injEq] at h
            exact h ▸ StepRel.delMiss k rid hst hk hm
      | finish rid =>
        cases hr : nth s.recs rid with
        | none => simp [stepThread, ht, hst, hr] at h
        | some r =>
          cases he : r.err with
          | some e =>
            simp only [stepThread, ht, hst, hr, he, Option.some.injEq] at h
            exact h ▸ StepRel.finErr rid r e hst hr he
          | none =>
            simp only [stepThread, ht, hst, hr, he, Option.some.injEq] at h
            exact h ▸ StepRel.finOk rid r hst hr he

/-! ## The leader invariant

While a thread is in the leader section its local variable `cl` pins one
record.  `LeaderOk` states that each such record index is a valid heap
index, that no two threads' leader sections pin the same record, and that
a record still being written (before `ev.set()`) has its event unfired.
This invariant holds in every reachable state and is what makes a fired
record immutable (claim C8). -/

/-- The record pinned by the local `cl` of a thread in the leader
section. -/
def leaderRid : PC → Option Nat
  | PC.invokeFn rid => some rid
  | PC.setEv rid => some rid
  | PC.graceSleep rid => some rid
  | PC.delAcquire rid => some rid
  | PC.delKey rid => some rid
  | PC.finish rid => some rid
  | _ => none

/-- `leaderRid` lifted to thread statuses. -/
def statusRid : Status → Option Nat
  | Status.running pc => leaderRid pc
  | Status.done _ => none

/-- Statuses at which the thread may still write the pinned record. -/
def writerPC : Status → Option Nat
  | Status.running (PC.invokeFn rid) => some rid
  | Status.running (PC.setEv rid) => some rid
  | _ => none

/-- The leader invariant over a thread list and a record heap. -/
def LeaderOkT (ts : List ThreadSt) (recs : List CallLock) : Prop :=
  ∀ i t rid, nth ts i = some t → statusRid t.status = some rid →
    rid < recs.length ∧
    (∀ j u, nth ts j = some u → statusRid u.status = some rid → j = i) ∧
    (writerPC t.status = some rid → ∀ r, nth recs rid = some r → r.ev = false)

/-- The leader invariant of a state. -/
def LeaderOk (s : SFState) : Prop := LeaderOkT s.threads s.recs

theorem setNth_ge {α : Type} {l : List α} {i : Nat} (b : α)
    (h : l.length ≤ i) : setNth l i b = l := by
  induction l generalizing i with
  | nil => simp [setNth]
  | cons a l ih =>
    cases i with
    | zero => simp at h
    | succ n =>
      simp only [setNth, List.cons.injEq, true_and]
      exact ih (Nat.le_of_succ_le_succ h)

theorem nth_setNth_cases {α : Type} (l : List α) (i j : Nat) (b : α) :
    nth (setNth l j b) i = nth l i ∨
    (i = j ∧ j < l.length ∧ nth (setNth l j b) i = some b) := by
  by_cases hij : i = j
  · subst hij
    by_cases hlt : i < l.length
    · exact Or.inr ⟨rfl, hlt, nth_setNth_self b hlt⟩
    · exact Or.inl (by rw [setNth_ge b (Nat.le_of_not_lt hlt)])
  · exact Or.inl (nth_setNth_ne l b hij)

theorem nth_map {α β : Type} (f : α → β) (l : List α) (i : Nat) :
    nth (l.map f) i = (nth l i).map f := by
  induction l generalizing i with
  | nil => simp [nth]
  | cons a l ih =>
    cases i with
    | zero => simp [nth]
    | succ n => simpa [nth] using ih n

/-- Replacing a thread by one outside the leader section preserves the
invariant. -/
theorem leaderOkT_update_none {ts : List ThreadSt} {recs : List CallLock}
    {tid : Nat} {t' : ThreadSt}
    (hInv : LeaderOkT ts recs) (hnone : statusRid t'.status = none) :
    LeaderOkT (setNth ts tid t') recs := by
  intro i t2 rid h1 h2
  rcases nth_setNth_cases ts i tid t' with hsame | ⟨rfl, hlt, hset⟩
  · rw [hsame] at h1
    obtain ⟨hb, hu, hw⟩ := hInv i t2 rid h1 h2
    refine ⟨hb, ?_, hw⟩
    intro j u hj hu2
    rcases nth_setNth_cases ts j tid t' with hsame2 | ⟨rfl, _, hset2⟩
    · exact hu j u (hsame2 ▸ hj) hu2
    · rw [hset2] at hj
      injection hj with hj
      subst hj
      rw [hnone] at hu2
      exact Option.noConfusion hu2
  · rw [hset] at h1
    injection h1 with h1
    subst h1
    rw [hnone] at h2
    exact Option.noConfusion h2

/-- Moving the thread within its leader section (without touching the
heap) preserves the invariant, provided the new status only writes if the
old one did. -/
theorem leaderOkT_update_same {ts : List ThreadSt} {recs : List CallLock}
    {tid rid0 : Nat} {t t' : ThreadSt}
    (hInv : LeaderOkT ts recs) (htid : nth ts tid = some t)
    (hrid : statusRid t.status = some rid0)
    (hrid2 : statusRid t'.status = some rid0)
    (hwr : writerPC t'.status = some rid0 → writerPC t.status = some rid0) :
    LeaderOkT (setNth ts tid t') recs := by
  have hlen := nth_some_lt htid
  intro i t2 rid h1 h2
  by_cases hi : i = tid
  · subst hi
    rw [nth_setNth_self _ hlen] at h1
    injection h1 with h1
    subst h1
    rw [hrid2] at h2
    injection h2 with h2
    subst h2
    obtain ⟨hb, hu, hw⟩ := hInv i t rid0 htid hrid
    refine ⟨hb, ?_, fun hw2 => hw (hwr hw2)⟩
    intro j u hj hu2
    by_cases hj2 : j = i
    · exact hj2
    · rw [nth_setNth_ne _ _ hj2] at hj
      exact hu j u hj hu2
  · rw [nth_setNth_ne _ _ hi] at h1
    obtain ⟨hb, hu, hw⟩ := hInv i t2 rid h1 h2
    refine ⟨hb, ?_, hw⟩
    intro j u hj hu2
    by_cases hj2 : j = tid
    · subst hj2
      rw [nth_setNth_self _ hlen] at hj
      injection hj with hj
      subst hj
      rw [hrid2] at hu2
      injection hu2 with hu2
      subst hu2
      exact absurd (hu j t htid hrid) (fun hc => hi hc.symm)
    · rw [nth_setNth_ne _ _ hj2] at hj
      exact hu j u hj hu2

/-- Becoming the leader of a freshly appended record preserves the
invariant. -/
theorem leaderOkT_newLeader {ts : List ThreadSt} {recs : List CallLock}
    {tid : Nat} {t' : ThreadSt}
    (hInv : LeaderOkT ts recs)
    (hst : t'.status = Status.running (PC.invokeFn recs.length)) :
    LeaderOkT (setNth ts tid t') (recs ++ [CallLock.init]) := by
  intro i t2 rid h1 h2
  rcases nth_setNth_cases ts i tid t' with hsame | ⟨rfl, hlt, hset⟩
  · rw [hsame] at h1
    obtain ⟨hb, hu, hw⟩ := hInv i t2 rid h1 h2
    refine ⟨?_, ?_, ?_⟩
    · simpa using Nat.lt_succ_of_lt hb
    · intro j u hj hu2
      rcases nth_setNth_cases ts j tid t' with hsame2 | ⟨rfl, _, hset2⟩
      · exact hu j u (hsame2 ▸ hj) hu2
      · rw [hset2] at hj
        injection hj with hj
        subst hj
        rw [hst] at hu2
        simp only [statusRid, leaderRid, Option.some.injEq] at hu2
        subst hu2
        exact absurd hb (Nat.lt_irrefl _)
    · intro hw2 r hr2
      rw [nth_append_lt _ hb] at hr2
      exact hw hw2 r hr2
  · rw [hset] at h1
    injection h1 with h1
    subst h1
    rw [hst] at h2
    simp only [statusRid, leaderRid, Option.some.injEq] at h2
    subst h2
    refine ⟨by simp, ?_, ?_⟩
    · intro j u hj hu2
      rcases nth_setNth_cases ts j i t' with hsame2 | ⟨rfl, _, _⟩
      · rw [hsame2] at hj
        obtain ⟨hb2, _, _⟩ := hInv j u _ hj hu2
        exact absurd hb2 (Nat.lt_irrefl _)
      · rfl
    · intro _ r hr2
      rw [nth_append_length] at hr2
      injection hr2 with hr2
      subst hr2
      rfl

/-- A writer updating its own (unfired) record preserves the invariant,
provided the new record is unfired whenever the thread keeps writing. -/
theorem leaderOkT_writeRec {ts : List ThreadSt} {recs : List CallLock}
    {tid rid0 : Nat} {t t' : ThreadSt} {r2 : CallLock}
    (hInv : LeaderOkT ts recs) (htid : nth ts tid = some t)
    (hrid : statusRid t.status = some rid0)
    (hrid2 : statusRid t'.status = some rid0)
    (hwr2 : writerPC t'.status = some rid0 → r2.ev = false) :
    LeaderOkT (setNth ts tid t') (setNth recs rid0 r2) := by
  have hlen := nth_some_lt htid
  intro i t2 rid h1 h2
  by_cases hi : i = tid
  · subst hi
    rw [nth_setNth_self _ hlen] at h1
    injection h1 with h1
    subst h1
    rw [hrid2] at h2
    injection h2 with h2
    subst h2
    obtain ⟨hb, hu, _⟩ := hInv i t rid0 htid hrid
    refine ⟨by simpa using hb, ?_, ?_⟩
    · intro j u hj hu2
      by_cases hj2 : j = i
      · exact hj2
      · rw [nth_setNth_ne _ _ hj2] at hj
        exact hu j u hj hu2
    · intro hw2 r hr2
      rw [nth_setNth_self _ hb] at hr2
      injection hr2 with hr2
      subst hr2
      exact hwr2 hw2
  · rw [nth_setNth_ne _ _ hi] at h1
    obtain ⟨hb, hu, hw⟩ := hInv i t2 rid h1 h2
    have hne : rid ≠ rid0 := by
      intro hcon
      subst hcon
      exact hi (hu tid t htid hrid).symm
    refine ⟨by simpa using hb, ?_, ?_⟩
    · intro j u hj hu2
      by_cases hj2 : j = tid
      · subst hj2
        rw [nth_setNth_self _ hlen] at hj
        injection hj with hj
        subst hj
        rw [hrid2] at hu2
        injection hu2 with hu2
        exact absurd hu2.symm hne
      · rw [nth_setNth_ne _ _ hj2] at hj
        exact hu j u hj hu2
    · intro hw2 r hr2
      rw [nth_setNth_ne _ _ hne] at hr2
      exact hw hw2 r hr2

/-- Every successful step preserves the leader invariant. -/
theorem leaderOk_step {s : SFState} {tid : Nat} {s2 : SFState}
    (h : stepThread s tid = some s2) (hInv : LeaderOk s) : LeaderOk s2 := by
  obtain ⟨t, ht, hrel⟩ := step_cases s tid s2 h
  cases hrel with
  | startKeyErr hpc hk => exact leaderOkT_update_none hInv rfl
  | startFnErr k hpc hk hc => exact leaderOkT_update_none hInv rfl
  | startOk k hpc hk hc => exact leaderOkT_update_none hInv rfl
  | acq hpc hl => exact leaderOkT_update_none hInv rfl
  | checkFollower k rid hpc hk hm => exact leaderOkT_update_none hInv rfl
  | checkLeader k hpc hk hm => exact leaderOkT_newLeader hInv rfl
  | waitLookupMiss k hpc hk hm => exact leaderOkT_update_none hInv rfl
  | waitLookupHit k rid hpc hk hm => exact leaderOkT_update_none hInv rfl
  | waitPass rid r hpc hr hev => exact leaderOkT_update_none hInv rfl
  | errLookupMiss k hpc hk hm => exact leaderOkT_update_none hInv rfl
  | errLookupTruthy k rid r hpc hk hm hr htr =>
      exact leaderOkT_update_none hInv rfl
  | errLookupFalsy k rid r hpc hk hm hr htr =>
      exact leaderOkT_update_none hInv rfl
  | raiseLookupMiss k hpc hk hm => exact leaderOkT_update_none hInv rfl
  | raiseSome k rid r e hpc hk hm hr he => exact leaderOkT_update_none hInv rfl
  | raiseNone k rid r hpc hk hm hr he => exact leaderOkT_update_none hInv rfl
  | resLookupMiss k hpc hk hm => exact leaderOkT_update_none hInv rfl
  | resHit k rid r hpc hk hm hr => exact leaderOkT_update_none hInv rfl
  | invokeOk rid r v hpc hr hb =>
      exact leaderOkT_writeRec hInv ht (by rw [hpc]; rfl) rfl
        (fun _ => (hInv tid t rid ht (by rw [hpc]; rfl)).2.2 (by rw [hpc]; rfl) r hr)
  | invokeExn rid r e hpc hr hb =>
      exact leaderOkT_writeRec hInv ht (by rw [hpc]; rfl) rfl
        (fun _ => (hInv tid t rid ht (by rw [hpc]; rfl)).2.2 (by rw [hpc]; rfl) r hr)
  | invokeBase rid r e hpc hr hb => exact leaderOkT_update_none hInv rfl
  | evSet rid r hpc hr =>
      exact leaderOkT_writeRec hInv ht (by rw [hpc]; rfl) rfl
        (fun hcon => Option.noConfusion hcon)
  | grace rid hpc =>
      exact leaderOkT_update_same hInv ht (by rw [hpc]; rfl) rfl
        (fun hcon => Option.noConfusion hcon)
  | delAcq rid hpc hl =>
      exact leaderOkT_update_same hInv ht (by rw [hpc]; rfl) rfl
        (fun hcon => Option.noConfusion hcon)
  | delHit k rid rid2 hpc hk hm =>
      exact leaderOkT_update_same hInv ht (by rw [hpc]; rfl) rfl
        (fun hcon => Option.noConfusion hcon)
  | delMiss k rid hpc hk hm => exact leaderOkT_update_none hInv rfl
  | finErr rid r e hpc hr he => exact leaderOkT_update_none hInv rfl
  | finOk rid r hpc hr he => exact leaderOkT_update_none hInv rfl

theorem leaderOk_step1 (s : SFState) (tid : Nat) (hInv : LeaderOk s) :
    LeaderOk (step1 s tid) := by
  cases hstep : stepThread s tid with
  | none => simpa [step1, hstep] using hInv
  | some s2 => simpa [step1, hstep] using leaderOk_step hstep hInv

theorem leaderOk_run (s : SFState) (sched : List Nat) (hInv : LeaderOk s) :
    LeaderOk (runSched s sched) := by
  induction sched generalizing s with
  | nil => exact hInv
  | cons a rest ih => exact ih (step1 s a) (leaderOk_step1 s a hInv)

theorem leaderOk_init (cs : List CallSpec) : LeaderOk (initState cs) := by
  intro i t rid h1 h2
  rw [show (initState cs).threads = cs.map initThread from rfl, nth_map] at h1
  cases hc : nth cs i with
  | none => rw [hc] at h1; exact Option.noConfusion h1
  | some c =>
    rw [hc] at h1
    injection h1 with h1
    subst h1
    exact Option.noConfusion h2

/-- A state reachable from some fresh `SingleFlight()` with some callers
under some schedule. -/
def Reachable (s : SFState) : Prop :=
  ∃ cs sched, runSched (initState cs) sched = s

theorem leaderOk_reachable {s : SFState} (h : Reachable s) : LeaderOk s := by
  obtain ⟨cs, sched, rfl⟩ := h
  exact leaderOk_run _ sched (leaderOk_init cs)

/-- Claim C8: in every reachable state, a record whose completion event
has fired is never mutated by any step — every waiter observes exactly
the values that were in place when the event fired — and the firing step
itself (`ev.set()`) changes only the event flag, so the `res` and `err`
slots receive their final values strictly before the signal fires. -/
theorem claim8_frozen_after_fire (s : SFState) (tid : Nat) (s2 : SFState)
    (hreach : Reachable s) (h : stepThread s tid = some s2)
    (rid : Nat) (r : CallLock) (hr : nth s.recs rid = some r) :
    (r.ev = true → nth s2.recs rid = some r) ∧
    (∀ t, nth s.threads tid = some t →
        t.status = Status.running (PC.setEv rid) →
        nth s2.recs rid = some ⟨true, r.res, r.err⟩) := by
  have hInv : LeaderOk s := leaderOk_reachable hreach
  have hlt : rid < s.recs.length := nth_some_lt hr
  constructor
  · intro hev
    obtain ⟨t, ht, hrel⟩ := step_cases s tid s2 h
    cases hrel with
    | checkLeader k hpc hk hm =>
        show nth (s.recs ++ [CallLock.init]) rid = some r
        rw [nth_append_lt _ hlt]
        exact hr
    | invokeOk rid2 r2 v hpc hr2 hb =>
        have hev2 : r2.ev = false :=
          (hInv tid t rid2 ht (by rw [hpc]; rfl)).2.2 (by rw [hpc]; rfl) r2 hr2
        have hne : rid ≠ rid2 := by
          intro hcon
          rw [← hcon, hr] at hr2
          injection hr2 with hr2
          rw [← hr2, hev] at hev2
          exact Bool.noConfusion hev2
        show nth (setNth s.recs rid2 _) rid = some r
        rw [nth_setNth_ne _ _ hne]
        exact hr
    | invokeExn rid2 r2 e hpc hr2 hb =>
        have hev2 : r2.ev = false :=
          (hInv tid t rid2 ht (by rw [hpc]; rfl)).2.2 (by rw [hpc]; rfl) r2 hr2
        have hne : rid ≠ rid2 := by
          intro hcon
          rw [← hcon, hr] at hr2
          injection hr2 with hr2
          rw [← hr2, hev] at hev2
          exact Bool.noConfusion hev2
        show nth (setNth s.recs rid2 _) rid = some r
        rw [nth_setNth_ne _ _ hne]
        exact hr
    | evSet rid2 r2 hpc hr2 =>
        have hev2 : r2.ev = false :=
          (hInv tid t rid2 ht (by rw [hpc]; rfl)).2.2 (by rw [hpc]; rfl) r2 hr2
        have hne : rid ≠ rid2 := by
          intro hcon
          rw [← hcon, hr] at hr2
          injection hr2 with hr2
          rw [← hr2, hev] at hev2
          exact Bool.noConfusion hev2
        show nth (setNth s.recs rid2 _) rid = some r
        rw [nth_setNth_ne _ _ hne]
        exact hr
    | startKeyErr hpc hk => exact hr
    | startFnErr k hpc hk hc => exact hr
    | startOk k hpc hk hc => exact hr
    | acq hpc hl => exact hr
    | checkFollower k rid2 hpc hk hm => exact hr
    | waitLookupMiss k hpc hk hm => exact hr
    | waitLookupHit k rid2 hpc hk hm => exact hr
    | waitPass rid2 r2 hpc hr2 hev2 => exact hr
    | errLookupMiss k hpc hk hm => exact hr
    | errLookupTruthy k rid2 r2 hpc hk hm hr2 htr => exact hr
    | errLookupFalsy k rid2 r2 hpc hk hm hr2 htr => exact hr
    | raiseLookupMiss k hpc hk hm => exact hr
    | raiseSome k rid2 r2 e hpc hk hm hr2 he => exact hr
    | raiseNone k rid2 r2 hpc hk hm hr2 he => exact hr
    | resLookupMiss k hpc hk hm => exact hr
    | resHit k rid2 r2 hpc hk hm hr2 => exact hr
    | invokeBase rid2 r2 e hpc hr2 hb => exact hr
    | grace rid2 hpc => exact hr
    | delAcq rid2 hpc hl => exact hr
    | delHit k rid2 rid3 hpc hk hm => exact hr
    | delMiss k rid2 hpc hk hm => exact hr
    | finErr rid2 r2 e hpc hr2 he => exact hr
    | finOk rid2 r2 hpc hr2 he => exact hr
  · intro t ht hst
    simp only [stepThread, ht, hst, hr] at h
    simp only [Option.some.injEq] at h
    subst h
    show nth (setNth s.recs rid { r with ev := true }) rid = some _
    rw [nth_setNth_self _ hlt]

/-- Witness for C8: a reachable two-caller state whose record has fired;
the next step leaves the record untouched. -/
theorem claim8_frozen_after_fire_witness :
    Reachable (runSched c1State [0, 0, 0, 0, 0]) ∧
    nth (runSched c1State [0, 0, 0, 0, 0]).recs 0 =
      some ⟨true, PyVal.pyint 42, none⟩ ∧
    nth (runSched c1State [0, 0, 0, 0, 0, 0]).recs 0 =
      some ⟨true, PyVal.pyint 42, none⟩ :=
  ⟨⟨[⟨PyVal.pystr "k", okFn 42, []⟩, ⟨PyVal.pystr "k", okFn 42, []⟩],
    [0, 0, 0, 0, 0], rfl⟩,
   rfl,
   (claim8_frozen_after_fire (runSched c1State [0, 0, 0, 0, 0]) 0
      (runSched c1State [0, 0, 0, 0, 0, 0])
      ⟨[⟨PyVal.pystr "k", okFn 42, []⟩, ⟨PyVal.pystr "k", okFn 42, []⟩],
        [0, 0, 0, 0, 0], rfl⟩
      rfl 0 ⟨true, PyVal.pyint 42, none⟩ rfl).1 rfl⟩

/-! ## Permanently claimed keys

When a leader dies of a `BaseException`, its key remains mapped to a
record whose event will never fire.  `DeadKey k rid s` captures the
resulting situation: `k` is mapped to record `rid`, the record's event is
unfired, no thread whose key is `k` is inside the leader section (so
nobody will ever delete `k`), and no thread can still write record `rid`
(so nobody will ever fire its event).  This is preserved by every step,
and threads of key `k` that are on their way to `ev.wait()` stay there
forever. -/

/-- The key is claimed by an unfired record that no live thread can
complete or delete. -/
def DeadKey (k : String) (rid : Nat) (s : SFState) : Prop :=
  lookupKey s.m k = some rid ∧
  rid < s.recs.length ∧
  (∀ r, nth s.recs rid = some r → r.ev = false) ∧
  (∀ i t, nth s.threads i = some t →
      (keyStr t.key = some k → statusRid t.status = none) ∧
      writerPC t.status ≠ some rid)

/-- The statuses of a caller that has not yet read the record: it is on
its way to, or parked in, `ev.wait()`. -/
def WaitingSt (rid : Nat) (st : Status) : Prop :=
  st = Status.running PC.start ∨ st = Status.running PC.acquireL ∨
  st = Status.running PC.checkKey ∨ st = Status.running PC.fWaitLookup ∨
  st = Status.running (PC.fWaitEv rid)

theorem stepRel_threads {s : SFState} {tid : Nat} {t : ThreadSt} {s2 : SFState}
    (hrel : StepRel s tid t s2) :
    ∃ t2, s2.threads = setNth s.threads tid t2 := by
  cases hrel <;> exact ⟨_, rfl⟩

/-- Steps that touch neither the registry nor the heap and leave the
stepping thread outside the leader section preserve `DeadKey`. -/
theorem deadKey_same_mrecs {s : SFState} {k : String} {rid : Nat} {tid : Nat}
    {t' : ThreadSt} (lock2 : Option Nat) (ev2 : List (Nat × List PyVal))
    (hd : DeadKey k rid s) (hrid : statusRid t'.status = none)
    (hwr : writerPC t'.status ≠ some rid) :
    DeadKey k rid ⟨lock2, s.m, s.recs, setNth s.threads tid t', ev2⟩ := by
  obtain ⟨hm, hb, hev, hth⟩ := hd
  refine ⟨hm, hb, hev, ?_⟩
  intro i t2 hti
  rcases nth_setNth_cases s.threads i tid t' with hsame | ⟨rfl, _, hset⟩
  · exact hth i t2 (hsame ▸ hti)
  · rw [hset] at hti
    injection hti with h2
    subst h2
    exact ⟨fun _ => hrid, hwr⟩

/-- Steps inside the leader section of a thread whose key cannot be `k`
(because it is in the leader section at all) preserve `DeadKey` when they
only move the thread and the lock. -/
theorem deadKey_leader_move {s : SFState} {k : String} {rid : Nat}
    {tid : Nat} {t t' : ThreadSt} (lock2 : Option Nat)
    (hd : DeadKey k rid s) (ht : nth s.threads tid = some t)
    (hkey : t'.key = t.key)
    (hold : statusRid t.status ≠ none)
    (hwr : writerPC t'.status ≠ some rid) :
    DeadKey k rid ⟨lock2, s.m, s.recs, setNth s.threads tid t', s.events⟩ := by
  obtain ⟨hm, hb, hev, hth⟩ := hd
  refine ⟨hm, hb, hev, ?_⟩
  intro i t2 hti
  rcases nth_setNth_cases s.threads i tid t' with hsame | ⟨rfl, _, hset⟩
  · exact hth i t2 (hsame ▸ hti)
  · rw [hset] at hti
    injection hti with h2
    subst h2
    refine ⟨?_, hwr⟩
    intro hkk
    rw [hkey] at hkk
    exact absurd ((hth i t ht).1 hkk) hold

/-- A writer updating a record other than `rid` preserves `DeadKey`. -/
theorem deadKey_writer_update {s : SFState} {k : String} {rid : Nat}
    {tid rid2 : Nat} {t t' : ThreadSt} (r2 : CallLock)
    (ev2 : List (Nat × List PyVal))
    (hd : DeadKey k rid s) (ht : nth s.threads tid = some t)
    (hkey : t'.key = t.key)
    (hold : statusRid t.status ≠ none)
    (hne : rid2 ≠ rid)
    (hwr : writerPC t'.status ≠ some rid) :
    DeadKey k rid
      ⟨s.lock, s.m, setNth s.recs rid2 r2, setNth s.threads tid t', ev2⟩ := by
  obtain ⟨hm, hb, hev, hth⟩ := hd
  refine ⟨hm, by simpa using hb, ?_, ?_⟩
  · intro r hr
    rw [nth_setNth_ne _ _ (fun hc => hne hc.symm)] at hr
    exact hev r hr
  · intro i t2 hti
    rcases nth_setNth_cases s.threads i tid t' with hsame | ⟨rfl, _, hset⟩
    · exact hth i t2 (hsame ▸ hti)
    · rw [hset] at hti
      injection hti with h2
      subst h2
      refine ⟨?_, hwr⟩
      intro hkk
      rw [hkey] at hkk
      exact absurd ((hth i t ht).1 hkk) hold

/-- Every successful step preserves `DeadKey`. -/
theorem deadKey_step {s : SFState} {tid : Nat} {s2 : SFState} {k : String}
    {rid : Nat} (h : stepThread s tid = some s2) (hd : DeadKey k rid s) :
    DeadKey k rid s2 := by
  obtain ⟨t, ht, hrel⟩ := step_cases s tid s2 h
  cases hrel with
  | startKeyErr hpc hk =>
      exact deadKey_same_mrecs s.lock s.events hd rfl
        (fun hc => Option.noConfusion hc)
  | startFnErr k2 hpc hk hc =>
      exact deadKey_same_mrecs s.lock s.events hd rfl
        (fun hc => Option.noConfusion hc)
  | startOk k2 hpc hk hc =>
      exact deadKey_same_mrecs s.lock s.events hd rfl
        (fun hc => Option.noConfusion hc)
  | acq hpc hl =>
      exact deadKey_same_mrecs (some tid) s.events hd rfl
        (fun hc => Option.noConfusion hc)
  | checkFollower k2 rid2 hpc hk hm2 =>
      exact deadKey_same_mrecs none s.events hd rfl
        (fun hc => Option.noConfusion hc)
  | checkLeader k2 hpc hk hm2 =>
      obtain ⟨hm, hb, hev, hth⟩ := hd
      have hne : k2 ≠ k := by
        intro hcon
        rw [hcon, hm] at hm2
        exact Option.noConfusion hm2
      refine ⟨?_, ?_, ?_, ?_⟩
      · show lookupKey ((k2, s.recs.length) :: s.m) k = some rid
        simp only [lookupKey]
        rw [if_neg hne]
        exact hm
      · show rid < (s.recs ++ [CallLock.init]).length
        simp only [List.length_append, List.length_cons, List.length_nil]
        omega
      · intro r hr
        have hr2 : nth (s.recs ++ [CallLock.init]) rid = some r := hr
        rw [nth_append_lt _ hb] at hr2
        exact hev r hr2
      · intro i t2 hti
        have hti2 : nth (setNth s.threads tid
            (withStatus t (Status.running (PC.invokeFn s.recs.length)))) i =
            some t2 := hti
        rcases nth_setNth_cases s.threads i tid _ with hsame | ⟨rfl, _, hset⟩
        · exact hth i t2 (hsame ▸ hti2)
        · rw [hset] at hti2
          injection hti2 with h2
          subst h2
          constructor
          · intro hkk
            have hkk2 : keyStr t.key = some k := hkk
            rw [hk] at hkk2
            injection hkk2 with hkk2
            exact absurd hkk2 hne
          · intro hc
            have h2 : s.recs.length = rid := Option.some.inj hc
            rw [← h2] at hb
            exact absurd hb (Nat.lt_irrefl _)
  | waitLookupMiss k2 hpc hk hm2 =>
      exact deadKey_same_mrecs s.lock s.events hd rfl
        (fun hc => Option.noConfusion hc)
  | waitLookupHit k2 rid2 hpc hk hm2 =>
      exact deadKey_same_mrecs s.lock s.events hd rfl
        (fun hc => Option.noConfusion hc)
  | waitPass rid2 r2 hpc hr2 hev2 =>
      exact deadKey_same_mrecs s.lock s.events hd rfl
        (fun hc => Option.noConfusion hc)
  | errLookupMiss k2 hpc hk hm2 =>
      exact deadKey_same_mrecs s.lock s.events hd rfl
        (fun hc => Option.noConfusion hc)
  | errLookupTruthy k2 rid2 r2 hpc hk hm2 hr2 htr =>
      exact deadKey_same_mrecs s.lock s.events hd rfl
        (fun hc => Option.noConfusion hc)
  | errLookupFalsy k2 rid2 r2 hpc hk hm2 hr2 htr =>
      exact deadKey_same_mrecs s.lock s.events hd rfl
        (fun hc => Option.noConfusion hc)
  | raiseLookupMiss k2 hpc hk hm2 =>
      exact deadKey_same_mrecs s.lock s.events hd rfl
        (fun hc => Option.noConfusion hc)
  | raiseSome k2 rid2 r2 e hpc hk hm2 hr2 he =>
      exact deadKey_same_mrecs s.lock s.events hd rfl
        (fun hc => Option.noConfusion hc)
  | raiseNone k2 rid2 r2 hpc hk hm2 hr2 he =>
      exact deadKey_same_mrecs s.lock s.events hd rfl
        (fun hc => Option.noConfusion hc)
  | resLookupMiss k2 hpc hk hm2 =>
      exact deadKey_same_mrecs s.lock s.events hd rfl
        (fun hc => Option.noConfusion hc)
  | resHit k2 rid2 r2 hpc hk hm2 hr2 =>
      exact deadKey_same_mrecs s.lock s.events hd rfl
        (fun hc => Option.noConfusion hc)
  | invokeOk rid2 r2 v hpc hr2 hb2 =>
      have hne : rid2 ≠ rid := by
        intro hcon
        exact ((hd.2.2.2) tid t ht).2 (by rw [hpc, hcon]; rfl)
      exact deadKey_writer_update _ _ hd ht rfl
        (by rw [hpc]; exact fun hc => Option.noConfusion hc) hne
        (fun hc => hne (Option.some.inj hc))
  | invokeExn rid2 r2 e hpc hr2 hb2 =>
      have hne : rid2 ≠ rid := by
        intro hcon
        exact ((hd.2.2.2) tid t ht).2 (by rw [hpc, hcon]; rfl)
      exact deadKey_writer_update _ _ hd ht rfl
        (by rw [hpc]; exact fun hc => Option.noConfusion hc) hne
        (fun hc => hne (Option.some.inj hc))
  | invokeBase rid2 r2 e hpc hr2 hb2 =>
      exact deadKey_same_mrecs s.lock (s.events ++ [(tid, t.args)]) hd rfl
        (fun hc => Option.noConfusion hc)
  | evSet rid2 r2 hpc hr2 =>
      have hne : rid2 ≠ rid := by
        intro hcon
        exact ((hd.2.2.2) tid t ht).2 (by rw [hpc, hcon]; rfl)
      exact deadKey_writer_update _ _ hd ht rfl
        (by rw [hpc]; exact fun hc => Option.noConfusion hc) hne
        (fun hc => Option.noConfusion hc)
  | grace rid2 hpc =>
      exact deadKey_leader_move s.lock hd ht rfl
        (by rw [hpc]; exact fun hc => Option.noConfusion hc)
        (fun hc => Option.noConfusion hc)
  | delAcq rid2 hpc hl =>
      exact deadKey_leader_move (some tid) hd ht rfl
        (by rw [hpc]; exact fun hc => Option.noConfusion hc)
        (fun hc => Option.noConfusion hc)
  | delHit k2 rid2 rid3 hpc hk hm2 =>
      obtain ⟨hm, hb, hev, hth⟩ := hd
      have hne : k2 ≠ k := by
        intro hcon
        have hkk : keyStr t.key = some k := by rw [hk, hcon]
        have h3 := (hth tid t ht).1 hkk
        rw [hpc] at h3
        exact Option.noConfusion h3
      refine ⟨?_, hb, hev, ?_⟩
      · show lookupKey (eraseKey s.m k2) k = some rid
        rw [lookupKey_eraseKey_ne _ (fun hc => hne hc.symm)]
        exact hm
      · intro i t2 hti
        have hti2 : nth (setNth s.threads tid
            (withStatus t (Status.running (PC.finish rid2)))) i = some t2 := hti
        rcases nth_setNth_cases s.threads i tid _ with hsame | ⟨rfl, _, hset⟩
        · exact hth i t2 (hsame ▸ hti2)
        · rw [hset] at hti2
          injection hti2 with h2
          subst h2
          refine ⟨?_, fun hc => Option.noConfusion hc⟩
          intro hkk
          have h3 := (hth i t ht).1 hkk
          rw [hpc] at h3
          exact Option.noConfusion h3
  | delMiss k2 rid2 hpc hk hm2 =>
      exact deadKey_same_mrecs none s.events hd rfl
        (fun hc => Option.noConfusion hc)
  | finErr rid2 r2 e hpc hr2 he =>
      exact deadKey_same_mrecs s.lock s.events hd rfl
        (fun hc => Option.noConfusion hc)
  | finOk rid2 r2 hpc hr2 he =>
      exact deadKey_same_mrecs s.lock s.events hd rfl
        (fun hc => Option.noConfusion hc)

theorem deadKey_step1 {s : SFState} {k : String} {rid : Nat} (tid : Nat)
    (hd : DeadKey k rid s) : DeadKey k rid (step1 s tid) := by
  cases hstep : stepThread s tid with
  | none => simpa [step1, hstep] using hd
  | some s2 => simpa [step1, hstep] using deadKey_step hstep hd

theorem deadKey_run {k : String} {rid : Nat} (sched : List Nat) (s : SFState)
    (hd : DeadKey k rid s) : DeadKey k rid (runSched s sched) := by
  induction sched generalizing s with
  | nil => exact hd
  | cons a rest ih => exact ih (step1 s a) (deadKey_step1 a hd)

/-- A caller of a dead key that has not yet read the record stays in the
waiting statuses after any single step. -/
theorem waiting_step {s : SFState} {tid : Nat} {s2 : SFState} {k : String}
    {rid : Nat} (h : stepThread s tid = some s2) (hd : DeadKey k rid s)
    (j : Nat) (t : ThreadSt)
    (hj : nth s.threads j = some t) (hk : keyStr t.key = some k)
    (hc : t.fn.callable = true) (hw : WaitingSt rid t.status) :
    ∃ t2, nth s2.threads j = some t2 ∧ t2.key = t.key ∧ t2.fn = t.fn ∧
      WaitingSt rid t2.status := by
  obtain ⟨t0, ht0, hrel⟩ := step_cases s tid s2 h
  by_cases hij : tid = j
  case neg =>
    obtain ⟨t', hthreads⟩ := stepRel_threads hrel
    refine ⟨t, ?_, rfl, rfl, hw⟩
    rw [hthreads, nth_setNth_ne _ _ (fun hc2 => hij hc2.symm)]
    exact hj
  case pos =>
    subst hij
    rw [ht0] at hj
    injection hj with hj
    subst hj
    have hlen := nth_some_lt ht0
    cases hrel with
    | startKeyErr hpc hk2 =>
        rw [hk] at hk2
        exact Option.noConfusion hk2
    | startFnErr k2 hpc hk2 hc2 =>
        rw [hc] at hc2
        exact Bool.noConfusion hc2
    | startOk k2 hpc hk2 hc2 =>
        exact ⟨_, nth_setNth_self _ hlen, rfl, rfl, Or.inr (Or.inl rfl)⟩
    | acq hpc hl =>
        exact ⟨_, nth_setNth_self _ hlen, rfl, rfl, Or.inr (Or.inr (Or.inl rfl))⟩
    | checkFollower k2 rid2 hpc hk2 hm2 =>
        exact ⟨_, nth_setNth_self _ hlen, rfl, rfl,
          Or.inr (Or.inr (Or.inr (Or.inl rfl)))⟩
    | checkLeader k2 hpc hk2 hm2 =>
        rw [hk] at hk2
        injection hk2 with hk2
        rw [← hk2, hd.1] at hm2
        exact Option.noConfusion hm2
    | waitLookupMiss k2 hpc hk2 hm2 =>
        rw [hk] at hk2
        injection hk2 with hk2
        rw [← hk2, hd.1] at hm2
        exact Option.noConfusion hm2
    | waitLookupHit k2 rid2 hpc hk2 hm2 =>
        rw [hk] at hk2
        injection hk2 with hk2
        rw [← hk2, hd.1] at hm2
        injection hm2 with hm2
        rw [hm2]
        exact ⟨_, nth_setNth_self _ hlen, rfl, rfl,
          Or.inr (Or.inr (Or.inr (Or.inr rfl)))⟩
    | waitPass rid2 r2 hpc hr2 hev2 =>
        rcases hw with h5 | h5 | h5 | h5 | h5 <;> rw [h5] at hpc <;>
          simp only [Status.running.injEq] at hpc
        · exact PC.noConfusion hpc
        · exact PC.noConfusion hpc
        · exact PC.noConfusion hpc
        · exact PC.noConfusion hpc
        · have hrid2 : rid = rid2 := by injection hpc
          rw [← hrid2] at hr2
          have := hd.2.2.1 r2 hr2
          rw [hev2] at this
          exact Bool.noConfusion this
    | errLookupMiss k2 hpc hk2 hm2 =>
        rcases hw with h5 | h5 | h5 | h5 | h5 <;> rw [h5] at hpc <;> simp at hpc
    | errLookupTruthy k2 rid2 r2 hpc hk2 hm2 hr2 htr =>
        rcases hw with h5 | h5 | h5 | h5 | h5 <;> rw [h5] at hpc <;> simp at hpc
    | errLookupFalsy k2 rid2 r2 hpc hk2 hm2 hr2 htr =>
        rcases hw with h5 | h5 | h5 | h5 | h5 <;> rw [h5] at hpc <;> simp at hpc
    | raiseLookupMiss k2 hpc hk2 hm2 =>
        rcases hw with h5 | h5 | h5 | h5 | h5 <;> rw [h5] at hpc <;> simp at hpc
    | raiseSome k2 rid2 r2 e hpc hk2 hm2 hr2 he =>
        rcases hw with h5 | h5 | h5 | h5 | h5 <;> rw [h5] at hpc <;> simp at hpc
    | raiseNone k2 rid2 r2 hpc hk2 hm2 hr2 he =>
        rcases hw with h5 | h5 | h5 | h5 | h5 <;> rw [h5] at hpc <;> simp at hpc
    | resLookupMiss k2 hpc hk2 hm2 =>
        rcases hw with h5 | h5 | h5 | h5 | h5 <;> rw [h5] at hpc <;> simp at hpc
    | resHit k2 rid2 r2 hpc hk2 hm2 hr2 =>
        rcases hw with h5 | h5 | h5 | h5 | h5 <;> rw [h5] at hpc <;> simp at hpc
    | invokeOk rid2 r2 v hpc hr2 hb2 =>
        rcases hw with h5 | h5 | h5 | h5 | h5 <;> rw [h5] at hpc <;> simp at hpc
    | invokeExn rid2 r2 e hpc hr2 hb2 =>
        rcases hw with h5 | h5 | h5 | h5 | h5 <;> rw [h5] at hpc <;> simp at hpc
    | invokeBase rid2 r2 e hpc hr2 hb2 =>
        rcases hw with h5 | h5 | h5 | h5 | h5 <;> rw [h5] at hpc <;> simp at hpc
    | evSet rid2 r2 hpc hr2 =>
        rcases hw with h5 | h5 | h5 | h5 | h5 <;> rw [h5] at hpc <;> simp at hpc
    | grace rid2 hpc =>
        rcases hw with h5 | h5 | h5 | h5 | h5 <;> rw [h5] at hpc <;> simp at hpc
    | delAcq rid2 hpc hl =>
        rcases hw with h5 | h5 | h5 | h5 | h5 <;> rw [h5] at hpc <;> simp at hpc
    | delHit k2 rid2 rid3 hpc hk2 hm2 =>
        rcases hw with h5 | h5 | h5 | h5 | h5 <;> rw [h5] at hpc <;> simp at hpc
    | delMiss k2 rid2 hpc hk2 hm2 =>
        rcases hw with h5 | h5 | h5 | h5 | h5 <;> rw [h5] at hpc <;> simp at hpc
    | finErr rid2 r2 e hpc hr2 he =>
        rcases hw with h5 | h5 | h5 | h5 | h5 <;> rw [h5] at hpc <;> simp at hpc
    | finOk rid2 r2 hpc hr2 he =>
        rcases hw with h5 | h5 | h5 | h5 | h5 <;> rw [h5] at hpc <;> simp at hpc

theorem waiting_step1 {s : SFState} {k : String} {rid : Nat} (tid j : Nat)
    {t : ThreadSt} (hd : DeadKey k rid s)
    (hj : nth s.threads j = some t) (hk : keyStr t.key = some k)
    (hc : t.fn.callable = true) (hw : WaitingSt rid t.status) :
    ∃ t2, nth (step1 s tid).threads j = some t2 ∧ t2.key = t.key ∧
      t2.fn = t.fn ∧ WaitingSt rid t2.status := by
  cases hstep : stepThread s tid with
  | none => exact ⟨t, by simp [step1, hstep, hj], rfl, rfl, hw⟩
  | some s2 =>
      have h2 := waiting_step hstep hd j t hj hk hc hw
      simpa [step1, hstep] using h2

theorem deadKey_waiting_run {k : String} {rid : Nat} (sched : List Nat)
    (s : SFState) (j : Nat) (t : ThreadSt)
    (hd : DeadKey k rid s) (hj : nth s.threads j = some t)
    (hk : keyStr t.key = some k) (hc : t.fn.callable = true)
    (hw : WaitingSt rid t.status) :
    ∃ t2, nth (runSched s sched).threads j = some t2 ∧
      WaitingSt rid t2.status := by
  induction sched generalizing s t with
  | nil => exact ⟨t, hj, hw⟩
  | cons a rest ih =>
      obtain ⟨t2, hj2, hkey2, hfn2, hw2⟩ := waiting_step1 a j hd hj hk hc hw
      exact ih (step1 s a) t2 (deadKey_step1 a hd) hj2
        (by rw [hkey2]; exact hk) (by rw [hfn2]; exact hc) hw2

/-- Claim C10: an operation raising a `BaseException` that is not an
`Exception` escapes the `try` block, so `call` propagates it to the
leader without firing the record's event and without deleting the key
(the explicit post-state below has the same `m`, `recs` and `lock`, only
the leader thread dies and the invocation is logged); and from any state
where the key is claimed by such an unfired, leaderless record
(`DeadKey`), every schedule keeps the key claimed and keeps every
attached or later caller of that key — any thread of that key still on
its way to, or parked in, `ev.wait()` — waiting forever, never
completing. -/
theorem claim10_base_exception_blocks (s : SFState) (tid : Nat)
    (t : ThreadSt) (rid : Nat) (r : CallLock) (e : Exc) (k : String)
    (sched : List Nat) (j : Nat) (tj : ThreadSt) :
    (nth s.threads tid = some t →
      t.status = Status.running (PC.invokeFn rid) →
      nth s.recs rid = some r →
      t.fn.behavior t.args = OpOutcome.baseExn e →
      stepThread s tid =
        some { setThread s tid (withStatus t (Status.done (Outcome.baseExn e))) with
                 events := s.events ++ [(tid, t.args)] }) ∧
    (DeadKey k rid s →
      DeadKey k rid (runSched s sched) ∧
      (nth s.threads j = some tj → keyStr tj.key = some k →
        tj.fn.callable = true → WaitingSt rid tj.status →
        ∃ t2, nth (runSched s sched).threads j = some t2 ∧
          WaitingSt rid t2.status)) := by
  constructor
  · intro ht hpc hr hb
    simp [stepThread, ht, hpc, hr, hb]
  · intro hd
    refine ⟨deadKey_run sched s hd, ?_⟩
    intro hj hk hc hw
    exact deadKey_waiting_run sched s j tj hd hj hk hc hw

/-- An operation that raises `KeyboardInterrupt` (a `BaseException` that
is not an `Exception`). -/
def baseFn : FnArg := ⟨true, fun _ => OpOutcome.baseExn ⟨"KeyboardInterrupt", true⟩⟩

/-- A leader whose operation raises `KeyboardInterrupt` plus one
follower. -/
def c10State : SFState :=
  initState [⟨PyVal.pystr "k", baseFn, []⟩, ⟨PyVal.pystr "k", okFn 1, []⟩]

/-- `c10State` after the leader has registered the record, the follower
has parked in `ev.wait()`, and the leader has died of the
`KeyboardInterrupt`. -/
def c10Dead : SFState := runSched c10State [0, 0, 0, 1, 1, 1, 1, 0]

theorem c10Dead_deadKey : DeadKey "k" 0 c10Dead := by
  refine ⟨rfl, by decide, ?_, ?_⟩
  · intro r hr
    injection hr with h2
    rw [← h2]
    rfl
  · intro i t hti
    cases i with
    | zero =>
        injection hti with h2
        subst h2
        exact ⟨fun _ => rfl, fun hc => Option.noConfusion hc⟩
    | succ n =>
        cases n with
        | zero =>
            injection hti with h2
            subst h2
            exact ⟨fun _ => rfl, fun hc => Option.noConfusion hc⟩
        | succ m => exact Option.noConfusion hti

/-- Witness for C10: the leader's `KeyboardInterrupt` step from the
concrete pre-state, and — from the resulting dead state — a schedule that
keeps running the follower yet leaves it parked in `ev.wait()` with the
key still claimed. -/
theorem claim10_base_exception_blocks_witness :
    stepThread (runSched c10State [0, 0, 0, 1, 1, 1, 1]) 0 = some c10Dead ∧
    DeadKey "k" 0 c10Dead ∧
    DeadKey "k" 0 (runSched c10Dead [1, 1, 1, 1, 1]) ∧
    (∃ t2, nth (runSched c10Dead [1, 1, 1, 1, 1]).threads 1 = some t2 ∧
      WaitingSt 0 t2.status) := by
  have h1 := (claim10_base_exception_blocks
      (runSched c10State [0, 0, 0, 1, 1, 1, 1]) 0
      ⟨PyVal.pystr "k", baseFn, [], Status.running (PC.invokeFn 0)⟩ 0
      CallLock.init ⟨"KeyboardInterrupt", true⟩ "k" [] 0
      ⟨PyVal.pystr "k", baseFn, [], Status.running (PC.invokeFn 0)⟩).1
      rfl rfl rfl rfl
  have h2 := (claim10_base_exception_blocks c10Dead 0
      ⟨PyVal.pystr "k", baseFn, [], Status.done
        (Outcome.baseExn ⟨"KeyboardInterrupt", true⟩)⟩ 0
      CallLock.init ⟨"KeyboardInterrupt", true⟩ "k" [1, 1, 1, 1, 1] 1
      ⟨PyVal.pystr "k", okFn 1, [], Status.running (PC.fWaitEv 0)⟩).2
      c10Dead_deadKey
  refine ⟨h1, c10Dead_deadKey, h2.1, ?_⟩
  exact h2.2 rfl rfl rfl (Or.inr (Or.inr (Or.inr (Or.inr rfl))))

end Tobira
